import Mathlib

/-!
Verification development for the steel interpreter core: a shallow embedding of
the reader (parser + interning table) from src/steel/src/parser/mod.rs, the
tree-walking evaluator from src/steel/src/evaluator.rs, and the lazy-stream
iterator from src/steel/src/steel_vm/lazy_stream.rs.

Modelling conventions:
- Rc pointer identity of AST atoms is modelled by a NodeId stamped on every
  atom allocation; a parsing session carries a session tag so that atoms
  allocated by distinct parser/interning-table instances are distinct objects,
  mirroring the freshness of Rc allocations.  List nodes carry no id because no
  property in this development depends on list-node identity.
- Machine floats (f64 number literals) are modelled as Int: no property here
  depends on rounding, only on carrying a numeric payload through the
  evaluator.
- Rust iteration with mutable state is modelled by explicit state passing; the
  evaluator and parser take a fuel argument (structural recursion on fuel) and
  return none when the fuel runs out, so that nonterminating evaluations are
  distinguishable from completed ones.  The evaluator additionally takes a
  depth budget that is decremented exactly at native recursive calls of the
  Rust evaluate function and left unchanged when the trampoline loop rewrites
  its (expression, environment) pair, so that native call-stack consumption is
  observable.
- Components whose sources are outside src/ (lexer, Env, SteelVal conversions,
  native primitives, the bytecode VM behind lazy streams) are modelled from
  the specification text at their documented boundary; each such definition
  carries a doc comment saying so.
-/

/-- Identity of a shared (reference-counted) AST node: the session tag names
the parser/interning-table instance that allocated it and idx is the
allocation counter value at creation time. -/
structure NodeId where
  session : Nat
  idx : Nat
deriving DecidableEq

/-- Modelled from the spec: the lexical token kinds produced by the external
lexer (parentheses, quote marker, identifiers, literals).  Number literals are
Int rather than f64, see the header note. -/
inductive Token where
  | OpenParen
  | CloseParen
  | QuoteTick
  | Identifier (s : String)
  | BooleanLiteral (b : Bool)
  | NumberLiteral (n : Int)
  | StringLiteral (s : String)
deriving DecidableEq

/-- The AST node type from parser/mod.rs: an atom wrapping a token, or a list
of shared child nodes.  The NodeId on Atom models Rc identity. -/
inductive Expr where
  | Atom (id : NodeId) (t : Token)
  | ListVal (l : List Expr)

/-- Modelled from the spec: opaque lexer-side token error (the TokenError type
lives in the external lexer module, outside src/). -/
structure TokenError where
  code : Nat
deriving DecidableEq

/-- ParseError from parser/mod.rs. -/
inductive ParseError where
  | TokenError (e : TokenError)
  | Unexpected (t : Token)
  | UnexpectedEOF
deriving DecidableEq

/-- Parser state: the remaining lazy token stream (each element a lexer result,
as the Rust Tokenizer yields Result of Token), the interning table
(HashMap from identifier text to the shared atom, modelled as an association
list with most recent insertion first), the allocation counter and the session
tag for NodeId stamping. -/
structure PState where
  tokens : List (Except TokenError Token)
  intern : List (String × Expr)
  counter : Nat
  session : Nat

/-- Association-list lookup modelling HashMap::get. -/
def assocFind (l : List (String × Expr)) (k : String) : Option Expr :=
  match l with
  | [] => none
  | (k₀, v₀) :: rest => if k₀ = k then some v₀ else assocFind rest k

/-- Parser::construct_quote from parser/mod.rs: fetch (or create and register)
the interned quote symbol and wrap the value as a two-element list
(quote-symbol, val). -/
def constructQuote (st : PState) (val : Expr) : Expr × PState :=
  match assocFind st.intern "quote" with
  | some q => (Expr.ListVal [q, val], st)
  | none =>
    let q := Expr.Atom ⟨st.session, st.counter⟩ (.Identifier "quote")
    (Expr.ListVal [q, val],
      { st with counter := st.counter + 1, intern := ("quote", q) :: st.intern })

/-- The two mutually recursive parser entry points, tied through one fuel
level: nextF is Iterator::next for Parser, rftF is Parser::read_from_tokens
with its explicit stack and current frame as loop state.  The outer Option is
fuel exhaustion; nextF's inner Option is the iterator's None (end of token
stream). -/
structure ParseFns where
  nextF : PState → Option (Option (Except ParseError Expr) × PState)
  rftF : List (List Expr) → List Expr → PState → Option (Except ParseError Expr × PState)

/-- Body of Parser::next (Iterator impl, parser/mod.rs lines 128-145): a quote
tick reads one following expression and wraps it via construct_quote (end of
stream there is UnexpectedEOF); an open paren delegates to read_from_tokens; a
close paren with no open frame is Unexpected(CloseParen); any other token
becomes a fresh (non-interned) atom. -/
def parserNextBody (p : ParseFns) (st : PState) :
    Option (Option (Except ParseError Expr) × PState) :=
  match st.tokens with
  | [] => some (none, st)
  | tk :: rest =>
    let st1 : PState := { st with tokens := rest }
    match tk with
    | .error e => some (some (.error (.TokenError e)), st1)
    | .ok .QuoteTick =>
      match p.nextF st1 with
      | none => none
      | some (none, st2) => some (some (.error .UnexpectedEOF), st2)
      | some (some (.error e), st2) => some (some (.error e), st2)
      | some (some (.ok x), st2) =>
        let q := constructQuote st2 x
        some (some (.ok q.1), q.2)
    | .ok .OpenParen =>
      match p.rftF [] [] st1 with
      | none => none
      | some (res, st2) => some (some res, st2)
    | .ok .CloseParen => some (some (.error (.Unexpected .CloseParen)), st1)
    | .ok t =>
      some (some (.ok (Expr.Atom ⟨st1.session, st1.counter⟩ t)),
        { st1 with counter := st1.counter + 1 })

/-- Body of Parser::read_from_tokens (parser/mod.rs lines 80-125): loop over
the token stream with an explicit stack of frames in progress (top of stack at
the head here) and a current frame.  Quote ticks read their operand through
Iterator::next; open paren pushes the current frame; close paren pops, or, on
an empty stack, completes the top-level expression; identifier tokens consult the
interning table and register a fresh shared atom on a miss; other tokens
become fresh atoms; end of stream is UnexpectedEOF. -/
def readFromTokensBody (p : ParseFns) (stack : List (List Expr)) (frame : List Expr)
    (st : PState) : Option (Except ParseError Expr × PState) :=
  match st.tokens with
  | [] => some (.error .UnexpectedEOF, st)
  | tk :: rest =>
    let st1 : PState := { st with tokens := rest }
    match tk with
    | .error e => some (.error (.TokenError e), st1)
    | .ok .QuoteTick =>
      match p.nextF st1 with
      | none => none
      | some (none, st2) => some (.error .UnexpectedEOF, st2)
      | some (some (.error e), st2) => some (.error e, st2)
      | some (some (.ok x), st2) =>
        let q := constructQuote st2 x
        p.rftF stack (frame ++ [q.1]) q.2
    | .ok .OpenParen => p.rftF (frame :: stack) [] st1
    | .ok .CloseParen =>
      match stack with
      | prevFrame :: stackRest =>
        p.rftF stackRest (prevFrame ++ [Expr.ListVal frame]) st1
      | [] => some (.ok (Expr.ListVal frame), st1)
    | .ok (.Identifier s) =>
      match assocFind st1.intern s with
      | some rc => p.rftF stack (frame ++ [rc]) st1
      | none =>
        let val := Expr.Atom ⟨st1.session, st1.counter⟩ (.Identifier s)
        p.rftF stack (frame ++ [val])
          { st1 with counter := st1.counter + 1, intern := (s, val) :: st1.intern }
    | .ok t =>
      p.rftF stack (frame ++ [Expr.Atom ⟨st1.session, st1.counter⟩ t])
        { st1 with counter := st1.counter + 1 }

/-- Fuel-indexed parser: level f+1 runs the source bodies with all recursive
calls (loop iterations of read_from_tokens included, one per consumed token)
going through level f. -/
def parseFns : Nat → ParseFns
  | 0 => ⟨fun _ => none, fun _ _ _ => none⟩
  | f + 1 => ⟨parserNextBody (parseFns f), readFromTokensBody (parseFns f)⟩

/-- Parser::next at a given fuel. -/
def parserNextF (f : Nat) : PState → Option (Option (Except ParseError Expr) × PState) :=
  (parseFns f).nextF

/-- Parser::read_from_tokens at a given fuel. -/
def readFromTokensF (f : Nat) :
    List (List Expr) → List Expr → PState → Option (Except ParseError Expr × PState) :=
  (parseFns f).rftF

/-- Collecting the parser iterator into Result of Vec (the collect call in
Evaluator::parse_and_eval and in the parser tests): repeated next, stopping at
the first error or at end of stream. -/
def parseAllF : Nat → PState → Option (Except ParseError (List Expr) × PState)
  | 0, _ => none
  | f + 1, st =>
    match parserNextF (f + 1) st with
    | none => none
    | some (none, st') => some (.ok [], st')
    | some (some (.error e), st') => some (.error e, st')
    | some (some (.ok x), st') =>
      match parseAllF f st' with
      | none => none
      | some (.error e, st'') => some (.error e, st'')
      | some (.ok xs, st'') => some (.ok (x :: xs), st'')

-- Sanity checks of the parser embedding against the repository's parser tests
-- (test_multi_parse, test_parse_simple, test_error in parser/mod.rs).

example :
    parseAllF 5 ⟨[.ok (.Identifier "a"), .ok (.Identifier "b")], [], 0, 0⟩
      = some (.ok [.Atom ⟨0, 0⟩ (.Identifier "a"), .Atom ⟨0, 1⟩ (.Identifier "b")],
          ⟨[], [], 2, 0⟩) := rfl

example :
    parseAllF 9
        ⟨[.ok .OpenParen, .ok (.Identifier "+"), .ok (.NumberLiteral 1),
          .ok (.NumberLiteral 2), .ok .CloseParen], [], 0, 0⟩
      = some (.ok [.ListVal [.Atom ⟨0, 0⟩ (.Identifier "+"), .Atom ⟨0, 1⟩ (.NumberLiteral 1),
          .Atom ⟨0, 2⟩ (.NumberLiteral 2)]],
          ⟨[], [("+", .Atom ⟨0, 0⟩ (.Identifier "+"))], 3, 0⟩) := rfl

example :
    parseAllF 9 ⟨[.ok .OpenParen, .ok .CloseParen, .ok .CloseParen], [], 0, 0⟩
      = some (.error (.Unexpected .CloseParen), ⟨[], [], 0, 0⟩) := rfl

example :
    parseAllF 9 ⟨[.ok .OpenParen, .ok (.Identifier "abc")], [], 0, 0⟩
      = some (.error .UnexpectedEOF,
          ⟨[], [("abc", .Atom ⟨0, 0⟩ (.Identifier "abc"))], 1, 0⟩) := rfl

example :
    parseAllF 9 ⟨[.ok .QuoteTick, .ok (.Identifier "a")], [], 0, 0⟩
      = some (.ok [.ListVal [.Atom ⟨0, 1⟩ (.Identifier "quote"), .Atom ⟨0, 0⟩ (.Identifier "a")]],
          ⟨[], [("quote", .Atom ⟨0, 1⟩ (.Identifier "quote"))], 2, 0⟩) := rfl

/-- Evaluation-time error taxonomy.  The rerrs module is outside src/, so the
constructors are modelled from the specification's error-handling section; the
ArityMismatch message strings are reproduced exactly from the format strings in
evaluator.rs (which is in src/), while other message payloads are abbreviated
because error-message formatting is explicitly out of the spec's scope.
ParseErr models the From conversion that lets the question-mark operator in
parse_and_eval return a parse error as a SteelErr. -/
inductive SteelErr where
  | ArityMismatch (msg : String)
  | TypeMismatch (msg : String)
  | UnexpectedToken (msg : String)
  | ContractViolation (msg : String)
  | BadSyntax (msg : String)
  | UnboundIdentifier (msg : String)
  | ParseErr (e : ParseError)
deriving DecidableEq

/-- The format string shared by every arity check in evaluator.rs:
what: expected N args got M. -/
def arityMsg (what : String) (expected got : Nat) : String :=
  what ++ ": expected " ++ toString expected ++ " args got " ++ toString got

/-- check_length from evaluator.rs lines 107-119. -/
def checkLength (what : String) (tokens : List Expr) (expected : Nat) :
    Except SteelErr Unit :=
  if tokens.length = expected then .ok ()
  else .error (.ArityMismatch (arityMsg what expected tokens.length))

/-- Modelled from the spec: the native primitive library is external to the
core; a native function reference is a pure function from an argument vector
to a value or failure.  We carry a name tag and give applyNative its
semantics. -/
inductive NativeFn where
  | add
  | sub
  | mul
  | lt
deriving DecidableEq

/-- Runtime values (rvals is outside src/, modelled from the spec's value
model): booleans, numbers, strings, void, native function references, lambda
closures, and the transient expression variant used only to round-trip an
Expr through the value channel for quote and eval. -/
inductive SteelVal where
  | BoolV (b : Bool)
  | NumV (n : Int)
  | StringV (s : String)
  | Void
  | FuncV (f : NativeFn)
  | LambdaV (params : List String) (body : Expr) (parentEnv : Nat)
  | ExprV (e : Expr)

/-- Modelled from the spec: arithmetic and comparison primitives at the
documented boundary (pure functions over value vectors). -/
def applyNative : NativeFn → List SteelVal → Except SteelErr SteelVal
  | .add, [.NumV a, .NumV b] => .ok (.NumV (a + b))
  | .sub, [.NumV a, .NumV b] => .ok (.NumV (a - b))
  | .mul, [.NumV a, .NumV b] => .ok (.NumV (a * b))
  | .lt, [.NumV a, .NumV b] => .ok (.BoolV (decide (a < b)))
  | _, _ => .error (.TypeMismatch "native primitive applied to bad arguments")

/-- Modelled from the spec: one environment frame, a mutable map of bindings
plus an optional parent frame reference.  Frames live in a Store and are
addressed by index, modelling the Rc RefCell sharing of Env. -/
structure EnvFrame where
  bindings : List (String × SteelVal)
  parent : Option Nat

/-- The heap of environment frames; a frame id is an index into envs and new
frames are appended, so parents always have smaller ids than children. -/
structure Store where
  envs : List EnvFrame

/-- Insert-or-overwrite on a binding list (HashMap::insert). -/
def bindingsSet : List (String × SteelVal) → String → SteelVal → List (String × SteelVal)
  | [], k, v => [(k, v)]
  | (k₀, v₀) :: rest, k, v =>
    if k₀ = k then (k, v) :: rest else (k₀, v₀) :: bindingsSet rest k v

/-- Lookup on a binding list (HashMap::get). -/
def bindingsFind : List (String × SteelVal) → String → Option SteelVal
  | [], _ => none
  | (k₀, v₀) :: rest, k => if k₀ = k then some v₀ else bindingsFind rest k

/-- Modelled from the spec: Env::lookup walks from the current frame to the
root and returns the first binding found, or an unbound-identifier failure.
The fuel argument bounds the chain walk; in every store built by the
evaluator parents have strictly smaller ids, so fuel id+1 always completes
the walk. -/
def envLookupFuel : Nat → Store → Nat → String → Except SteelErr SteelVal
  | 0, _, _, s => .error (.UnboundIdentifier s)
  | f + 1, st, i, s =>
    match st.envs[i]? with
    | none => .error (.UnboundIdentifier s)
    | some fr =>
      match bindingsFind fr.bindings s with
      | some v => .ok v
      | none =>
        match fr.parent with
        | none => .error (.UnboundIdentifier s)
        | some j => envLookupFuel f st j s

/-- Env::lookup at the standard fuel. -/
def envLookup (st : Store) (i : Nat) (s : String) : Except SteelErr SteelVal :=
  envLookupFuel (i + 1) st i s

/-- Modelled from the spec: Env::define inserts or overwrites in the current
frame only. -/
def envDefine (st : Store) (i : Nat) (s : String) (v : SteelVal) : Store :=
  match st.envs[i]? with
  | none => st
  | some fr => ⟨st.envs.set i { fr with bindings := bindingsSet fr.bindings s v }⟩

/-- Modelled from the spec: Env::set mutates the nearest enclosing frame that
already defines the name and fails with unbound-identifier if no frame in the
chain does.  Fuel as in envLookupFuel. -/
def envSetFuel : Nat → Store → Nat → String → SteelVal → Except SteelErr Store
  | 0, _, _, s, _ => .error (.UnboundIdentifier s)
  | f + 1, st, i, s, v =>
    match st.envs[i]? with
    | none => .error (.UnboundIdentifier s)
    | some fr =>
      match bindingsFind fr.bindings s with
      | some _ => .ok ⟨st.envs.set i { fr with bindings := bindingsSet fr.bindings s v }⟩
      | none =>
        match fr.parent with
        | none => .error (.UnboundIdentifier s)
        | some j => envSetFuel f st j s v

/-- Env::set at the standard fuel. -/
def envSet (st : Store) (i : Nat) (s : String) (v : SteelVal) : Except SteelErr Store :=
  envSetFuel (i + 1) st i s v

/-- Modelled from the spec: Env::define_all binds a parameter list to an
argument list positionally and fails with an arity mismatch if the lengths
differ. -/
def envDefineAll (st : Store) (i : Nat) :
    List String → List SteelVal → Except SteelErr Store
  | [], [] => .ok st
  | p :: ps, v :: vs => envDefineAll (envDefine st i p v) i ps vs
  | _, _ => .error (.ArityMismatch "define_all: mismatched parameter and argument counts")

/-- Modelled from the spec: the default global environment carries the native
primitive bindings the evaluator calls into. -/
def defaultBindings : List (String × SteelVal) :=
  [("+", .FuncV .add), ("-", .FuncV .sub), ("*", .FuncV .mul), ("<", .FuncV .lt)]

/-- Modelled from the spec: SteelVal::try_from(Rc of Expr), the conversion
used by the quote branch: the expression is carried into the value channel
unevaluated via the transient expression variant. -/
def tryFromExpr (e : Expr) : Except SteelErr SteelVal :=
  .ok (.ExprV e)

/-- Modelled from the spec: Rc of Expr try_from SteelVal, the inverse
conversion used by eval; only the transient expression variant is
expression-shaped. -/
def tryIntoExpr : SteelVal → Option Expr
  | .ExprV e => some e
  | _ => none

/-- Result type of one evaluation: a value or an evaluation failure. -/
abbrev EvalRes := Except SteelErr SteelVal

/-- The shape of a native recursive sub-evaluation call as the helper
functions of evaluator.rs see it: expression, environment id, store in;
possibly a result and the mutated store out (none is resource exhaustion). -/
abbrev EvalSub := Expr → Nat → Store → Option (EvalRes × Store)

/-- eval_atom from evaluator.rs lines 189-197: literals are self-evaluating,
identifiers are looked up in the current environment, any other token kind is
UnexpectedToken. -/
def evalAtom (t : Token) (env : Nat) (st : Store) : EvalRes :=
  match t with
  | .BooleanLiteral b => .ok (.BoolV b)
  | .Identifier s => envLookup st env s
  | .NumberLiteral n => .ok (.NumV n)
  | .StringLiteral s => .ok (.StringV s)
  | _ => .error (.UnexpectedToken "unexpected token kind in evaluation")

/-- parse_list_of_identifiers from evaluator.rs lines 89-105. -/
def parseListOfIdentifiers (identifiers : Expr) : Except SteelErr (List String)
  :=
  match identifiers with
  | .ListVal l => identListNames l
  | _ => .error (.TypeMismatch "List of Identifiers")
where
  /-- The inner map over the parameter list: every element must be an
  identifier atom. -/
  identListNames : List Expr → Except SteelErr (List String)
    | [] => .ok []
    | .Atom _ (.Identifier s) :: rest =>
      match identListNames rest with
      | .ok names => .ok (s :: names)
      | .error e => .error e
    | _ :: _ => .error (.TypeMismatch "Lambda must have symbols as arguments")

/-- eval_func argument evaluation (the map-evaluate-collect in eval_func and
eval_lambda): evaluate the operand list left to right, stopping at the first
failure, threading the store. -/
def evalArgs (sub : EvalSub) : List Expr → Nat → Store →
    Option (Except SteelErr (List SteelVal) × Store)
  | [], _, st => some (.ok [], st)
  | e :: rest, env, st =>
    match sub e env st with
    | none => none
    | some (.error err, st') => some (.error err, st')
    | some (.ok v, st') =>
      match evalArgs sub rest env st' with
      | none => none
      | some (.error err, st'') => some (.error err, st'')
      | some (.ok vs, st'') => some (.ok (v :: vs), st'')

/-- eval_func from evaluator.rs lines 199-209: evaluate all arguments, then
call the pure native function. -/
def evalFunc (sub : EvalSub) (fn : NativeFn) (ops : List Expr) (env : Nat)
    (st : Store) : Option (EvalRes × Store) :=
  match evalArgs sub ops env st with
  | none => none
  | some (.error err, st') => some (.error err, st')
  | some (.ok vals, st') => some (applyNative fn vals, st')

/-- eval_and from evaluator.rs lines 211-220: evaluate operands in order;
boolean false returns false immediately, boolean true and every non-boolean
value continue; an exhausted operand list returns true. -/
def evalAnd (sub : EvalSub) : List Expr → Nat → Store → Option (EvalRes × Store)
  | [], _, st => some (.ok (.BoolV true), st)
  | e :: rest, env, st =>
    match sub e env st with
    | none => none
    | some (.error err, st') => some (.error err, st')
    | some (.ok (.BoolV true), st') => evalAnd sub rest env st'
    | some (.ok (.BoolV false), st') => some (.ok (.BoolV false), st')
    | some (.ok _, st') => evalAnd sub rest env st'

/-- eval_or from evaluator.rs lines 222-230: evaluate operands in order;
boolean true returns true immediately, everything else (boolean false and
non-booleans alike) continues; an exhausted operand list returns false. -/
def evalOr (sub : EvalSub) : List Expr → Nat → Store → Option (EvalRes × Store)
  | [], _, st => some (.ok (.BoolV false), st)
  | e :: rest, env, st =>
    match sub e env st with
    | none => none
    | some (.error err, st') => some (.error err, st')
    | some (.ok (.BoolV true), st') => some (.ok (.BoolV true), st')
    | some (.ok _, st') => evalOr sub rest env st'

/-- eval_lambda from evaluator.rs lines 234-251: evaluate the arguments, build
a fresh child frame over the closure's captured parent environment, bind the
parameters positionally, and hand the body expression plus the new environment
back to the trampoline loop. -/
def evalLambdaApp (sub : EvalSub) (params : List String) (body : Expr)
    (parentEnv : Nat) (ops : List Expr) (env : Nat) (st : Store) :
    Option (Except SteelErr (Expr × Nat) × Store) :=
  match evalArgs sub ops env st with
  | none => none
  | some (.error err, st') => some (.error err, st')
  | some (.ok vals, st') =>
    let innerId := st'.envs.length
    let st'' : Store := ⟨st'.envs ++ [⟨[], some parentEnv⟩]⟩
    match envDefineAll st'' innerId params vals with
    | .error err => some (.error err, st'')
    | .ok st3 => some (.ok (body, innerId), st3)

/-- eval_if from evaluator.rs lines 253-263: with exactly three operands,
evaluate the test and return the then-expression on boolean true, the
else-expression on every other value; any other operand count is an
ArityMismatch before anything is evaluated. -/
def evalIf (sub : EvalSub) (ops : List Expr) (env : Nat) (st : Store) :
    Option (Except SteelErr Expr × Store) :=
  match ops with
  | [testExpr, thenExpr, elseExpr] =>
    match sub testExpr env st with
    | none => none
    | some (.error err, st') => some (.error err, st')
    | some (.ok (.BoolV true), st') => some (.ok thenExpr, st')
    | some (.ok _, st') => some (.ok elseExpr, st')
  | _ => some (.error (.ArityMismatch (arityMsg "If" 3 ops.length)), st)

/-- eval_make_lambda from evaluator.rs lines 265-279: with exactly two
operands, parse the parameter list and build a closure over the current
environment; otherwise an ArityMismatch. -/
def evalMakeLambda (ops : List Expr) (parentEnv : Nat) : EvalRes :=
  match ops with
  | [listOfSymbols, bodyExp] =>
    match parseListOfIdentifiers listOfSymbols with
    | .error e => .error e
    | .ok parsedList => .ok (.LambdaV parsedList bodyExp parentEnv)
  | _ => .error (.ArityMismatch (arityMsg "Lambda" 2 ops.length))

/-- eval_begin from evaluator.rs lines 282-294: evaluate all but the last
operand for effect in order, hand the last operand back to the trampoline
loop; zero operands is an ArityMismatch whose message carries no counts. -/
def evalBegin (sub : EvalSub) : List Expr → Nat → Store →
    Option (Except SteelErr Expr × Store)
  | [], _, st => some (.error (.ArityMismatch "begin requires at least one argument"), st)
  | [lastExpr], _, st => some (.ok lastExpr, st)
  | e :: rest, env, st =>
    match sub e env st with
    | none => none
    | some (.error err, st') => some (.error err, st')
    | some (.ok _, st') => evalBegin sub rest env st'

/-- eval_set from evaluator.rs lines 296-314: with exactly two operands,
evaluate the second first, then require the first to be an identifier and
mutate its nearest binding; the mutated binding's new value is returned as
Void here (the Env::set return value is outside src/ and unspecified by the
spec; no claim depends on it). -/
def evalSet (sub : EvalSub) (ops : List Expr) (env : Nat) (st : Store) :
    Option (EvalRes × Store) :=
  match ops with
  | [symbol, restExpr] =>
    match sub restExpr env st with
    | none => none
    | some (.error err, st') => some (.error err, st')
    | some (.ok v, st') =>
      match symbol with
      | .Atom _ (.Identifier s) =>
        match envSet st' env s v with
        | .error err => some (.error err, st')
        | .ok st'' => some (.ok .Void, st'')
      | _ => some (.error (.TypeMismatch "set expected an identifier"), st')
  | _ => some (.error (.ArityMismatch (arityMsg "Set" 2 ops.length)), st)

/-- eval_eval_expr from evaluator.rs lines 319-335: with exactly one operand,
evaluate it, convert the resulting value back into an expression (failing with
ContractViolation if it is not expression-shaped), and evaluate that
expression in the same environment. -/
def evalEvalExpr (sub : EvalSub) (ops : List Expr) (env : Nat) (st : Store) :
    Option (EvalRes × Store) :=
  match ops with
  | [e] =>
    match sub e env st with
    | none => none
    | some (.error err, st') => some (.error err, st')
    | some (.ok v, st') =>
      match tryIntoExpr v with
      | some ex => sub ex env st'
      | none => some (.error (.ContractViolation "Eval not given an expression"), st')
  | _ => some (.error (.ArityMismatch (arityMsg "Eval" 1 ops.length)), st)

/-- eval_define from evaluator.rs lines 338-379: with exactly two operands,
either bind an identifier to the evaluated body, or desugar the
function-shorthand (define (name params...) body) into a synthesized lambda
form, evaluate it, and bind the name; shape failures are TypeMismatch and the
wrong operand count is an ArityMismatch. -/
def evalDefine (sub : EvalSub) (ops : List Expr) (env : Nat) (st : Store) :
    Option (Except SteelErr Unit × Store) :=
  match ops with
  | [symbol, body] =>
    match symbol with
    | .Atom _ (.Identifier s) =>
      match sub body env st with
      | none => none
      | some (.error err, st') => some (.error err, st')
      | some (.ok v, st') => some (.ok (), envDefine st' env s v)
    | .ListVal [] =>
      some (.error (.TypeMismatch "define expected an identifier, got empty list"), st)
    | .ListVal (firstId :: restIds) =>
      match firstId with
      | .Atom _ (.Identifier s) =>
        let fakeLambda : Expr :=
          .ListVal [.Atom ⟨0, 0⟩ (.Identifier "lambda"), .ListVal restIds, body]
        match sub fakeLambda env st with
        | none => none
        | some (.error err, st') => some (.error err, st')
        | some (.ok v, st') => some (.ok (), envDefine st' env s v)
      | _ => some (.error (.TypeMismatch "Define expected identifier"), st)
    | _ => some (.error (.TypeMismatch "Define expects an identifier"), st)
  | _ => some (.error (.ArityMismatch (arityMsg "Define" 2 ops.length)), st)

/-- The binding-collection loop of eval_let (evaluator.rs lines 390-406): each
element of the binding list must be a two-element list; the two accumulation
vectors are returned together. -/
def evalLetCollect : List Expr → Except SteelErr (List Expr × List Expr)
  | [] => .ok ([], [])
  | pair :: rest =>
    match pair with
    | .ListVal [binding, expression] =>
      match evalLetCollect rest with
      | .error e => .error e
      | .ok (bs, args) => .ok (binding :: bs, expression :: args)
    | .ListVal _ => .error (.BadSyntax "Let requires pairs for binding")
    | _ => .error (.BadSyntax "Let: Missing body")

/-- eval_let from evaluator.rs lines 384-426: with exactly two operands,
rewrite (let ((n v)...) body) into the application
((lambda (n...) body) v...) without evaluating anything; malformed binding
shapes are BadSyntax, a wrong operand count is an ArityMismatch. -/
def evalLet (ops : List Expr) : Except SteelErr Expr :=
  match ops with
  | [bindings, body] =>
    match bindings with
    | .ListVal listOfPairs =>
      match evalLetCollect listOfPairs with
      | .error e => .error e
      | .ok (bindingsToCheck, argsToCheck) =>
        .ok (.ListVal (.ListVal [.Atom ⟨0, 0⟩ (.Identifier "lambda"),
          .ListVal bindingsToCheck, body] :: argsToCheck))
    | _ => .error (.BadSyntax "Let: Missing name or binding pairs")
  | _ => .error (.ArityMismatch (arityMsg "Let" 2 ops.length))

/-- The trampolined evaluate loop from evaluator.rs lines 121-187.  Fuel is
decremented once per loop iteration; sub is the native recursive evaluate
call, which decrements both fuel and the depth budget (the model of one native
call-stack frame); the tail-position rewrites (if branches, let desugaring,
the last begin operand, lambda-application bodies) re-enter the loop with the
depth budget unchanged. -/
def evaluateF : Nat → Nat → Expr → Nat → Store → Option (EvalRes × Store)
  | 0, _, _, _, _ => none
  | fuel + 1, depth, expr, env, st =>
    let sub : EvalSub := fun e en s =>
      match depth with
      | 0 => none
      | d + 1 => evaluateF fuel d e en s
    let appCase : Expr → List Expr → Option (EvalRes × Store) := fun f restOps =>
      match sub f env st with
      | none => none
      | some (.error err, st') => some (.error err, st')
      | some (.ok fv, st') =>
        match fv with
        | .FuncV fn => evalFunc sub fn restOps env st'
        | .LambdaV params body parentEnv =>
          match evalLambdaApp sub params body parentEnv restOps env st' with
          | none => none
          | some (.error err, st'') => some (.error err, st'')
          | some (.ok (bodyExpr, newEnv), st'') => evaluateF fuel depth bodyExpr newEnv st''
        | _ => some (.error (.TypeMismatch "application of a non-procedure"), st')
    match expr with
    | .Atom _ t => some (evalAtom t env st, st)
    | .ListVal [] => some (.error (.TypeMismatch "Given empty list"), st)
    | .ListVal (f :: restOps) =>
      match f with
      | .Atom fid (.Identifier s) =>
        if s = "quote" then
          match restOps with
          | [x] =>
            match tryFromExpr x with
            | .error err => some (.error err, st)
            | .ok converted => some (.ok converted, st)
          | _ => some (.error (.ArityMismatch (arityMsg "Quote" 2 (restOps.length + 1))), st)
        else if s = "if" then
          match evalIf sub restOps env st with
          | none => none
          | some (.error err, st') => some (.error err, st')
          | some (.ok nextExpr, st') => evaluateF fuel depth nextExpr env st'
        else if s = "define" then
          match evalDefine sub restOps env st with
          | none => none
          | some (.error err, st') => some (.error err, st')
          | some (.ok _, st') => some (.ok .Void, st')
        else if s = "lambda" ∨ s = "λ" then
          some (evalMakeLambda restOps env, st)
        else if s = "eval" then
          evalEvalExpr sub restOps env st
        else if s = "set!" then
          evalSet sub restOps env st
        else if s = "let" then
          match evalLet restOps with
          | .error err => some (.error err, st)
          | .ok nextExpr => evaluateF fuel depth nextExpr env st
        else if s = "begin" then
          match evalBegin sub restOps env st with
          | none => none
          | some (.error err, st') => some (.error err, st')
          | some (.ok nextExpr, st') => evaluateF fuel depth nextExpr env st'
        else if s = "and" then
          evalAnd sub restOps env st
        else if s = "or" then
          evalOr sub restOps env st
        else
          appCase (.Atom fid (.Identifier s)) restOps
      | _ => appCase f restOps

/-- A convenient synthetic node id for hand-written test expressions. -/
def tid : NodeId := ⟨99, 0⟩

/-- The store holding only the default global environment (frame id 0). -/
def store0 : Store := ⟨[⟨defaultBindings, none⟩]⟩

-- Sanity checks of the evaluator embedding against the spec's concrete
-- scenarios.

example :
    evaluateF 9 9 (.ListVal [.Atom tid (.Identifier "if"),
      .Atom tid (.BooleanLiteral true), .Atom tid (.NumberLiteral 1),
      .Atom tid (.NumberLiteral 2)]) 0 store0
      = some (.ok (.NumV 1), store0) := rfl

example :
    evaluateF 9 9 (.ListVal [.Atom tid (.Identifier "if"),
      .Atom tid (.BooleanLiteral false), .Atom tid (.NumberLiteral 1),
      .Atom tid (.NumberLiteral 2)]) 0 store0
      = some (.ok (.NumV 2), store0) := rfl

example :
    evaluateF 9 9 (.ListVal [.Atom tid (.Identifier "if"),
      .Atom tid (.NumberLiteral 1), .Atom tid (.NumberLiteral 2)]) 0 store0
      = some (.error (.ArityMismatch "If: expected 3 args got 2"), store0) := rfl

-- let-desugaring end to end: (let ((a 10) (b 20)) (+ a b)) evaluates to 30.
example :
    evaluateF 9 9 (.ListVal [.Atom tid (.Identifier "let"),
      .ListVal [.ListVal [.Atom tid (.Identifier "a"), .Atom tid (.NumberLiteral 10)],
        .ListVal [.Atom tid (.Identifier "b"), .Atom tid (.NumberLiteral 20)]],
      .ListVal [.Atom tid (.Identifier "+"), .Atom tid (.Identifier "a"),
        .Atom tid (.Identifier "b")]]) 0 store0
      = some (.ok (.NumV 30),
          ⟨[⟨defaultBindings, none⟩, ⟨[("a", .NumV 10), ("b", .NumV 20)], some 0⟩]⟩) := rfl

-- function-shorthand define followed by a call:
-- (define (square x) (* x x)) then (square 5) gives 25.
example :
    evaluateF 9 9 (.ListVal [.Atom tid (.Identifier "define"),
      .ListVal [.Atom tid (.Identifier "square"), .Atom tid (.Identifier "x")],
      .ListVal [.Atom tid (.Identifier "*"), .Atom tid (.Identifier "x"),
        .Atom tid (.Identifier "x")]]) 0 store0
      = some (.ok .Void,
          ⟨[⟨defaultBindings ++ [("square", .LambdaV ["x"]
            (.ListVal [.Atom tid (.Identifier "*"), .Atom tid (.Identifier "x"),
              .Atom tid (.Identifier "x")]) 0)], none⟩]⟩) := by rfl

example :
    evaluateF 9 9 (.ListVal [.Atom tid (.Identifier "square"),
      .Atom tid (.NumberLiteral 5)]) 0
      ⟨[⟨defaultBindings ++ [("square", .LambdaV ["x"]
        (.ListVal [.Atom tid (.Identifier "*"), .Atom tid (.Identifier "x"),
          .Atom tid (.Identifier "x")]) 0)], none⟩]⟩
      = some (.ok (.NumV 25),
          ⟨[⟨defaultBindings ++ [("square", .LambdaV ["x"]
            (.ListVal [.Atom tid (.Identifier "*"), .Atom tid (.Identifier "x"),
              .Atom tid (.Identifier "x")]) 0)], none⟩,
            ⟨[("x", .NumV 5)], some 0⟩]⟩) := by rfl

-- set! mutates the nearest binding: (begin (define x 1) (set! x 2) x) gives 2.
example :
    evaluateF 9 9 (.ListVal [.Atom tid (.Identifier "begin"),
      .ListVal [.Atom tid (.Identifier "define"), .Atom tid (.Identifier "x"),
        .Atom tid (.NumberLiteral 1)],
      .ListVal [.Atom tid (.Identifier "set!"), .Atom tid (.Identifier "x"),
        .Atom tid (.NumberLiteral 2)],
      .Atom tid (.Identifier "x")]) 0 store0
      = some (.ok (.NumV 2),
          ⟨[⟨defaultBindings ++ [("x", .NumV 2)], none⟩]⟩) := by rfl

/-- The native recursive evaluate call at a given fuel and depth budget: one
native stack frame is consumed (depth decremented), or the run is cut off when
the budget is exhausted. -/
def subF (fuel depth : Nat) : EvalSub := fun e en s =>
  match depth with
  | 0 => none
  | d + 1 => evaluateF fuel d e en s

/-- The application branch of the evaluate loop (evaluator.rs lines 167-179):
evaluate the operator, then dispatch on the resulting value kind; a native
function is applied directly, a lambda rewrites the loop state to its body
under a fresh bound environment, anything else is a TypeMismatch. -/
def appF (fuel depth : Nat) (f : Expr) (restOps : List Expr) (env : Nat)
    (st : Store) : Option (EvalRes × Store) :=
  match subF fuel depth f env st with
  | none => none
  | some (.error err, st') => some (.error err, st')
  | some (.ok fv, st') =>
    match fv with
    | .FuncV fn => evalFunc (subF fuel depth) fn restOps env st'
    | .LambdaV params body parentEnv =>
      match evalLambdaApp (subF fuel depth) params body parentEnv restOps env st' with
      | none => none
      | some (.error err, st'') => some (.error err, st'')
      | some (.ok (bodyExpr, newEnv), st'') => evaluateF fuel depth bodyExpr newEnv st''
    | _ => some (.error (.TypeMismatch "application of a non-procedure"), st')

-- One-iteration unfolding equations for the trampoline loop.  Each is
-- definitional; together they let proofs walk the loop symbolically.

theorem evalStepAtom (f d : Nat) (aid : NodeId) (t : Token) (env : Nat) (st : Store) :
    evaluateF (f + 1) d (.Atom aid t) env st = some (evalAtom t env st, st) := rfl

theorem evalStepEmpty (f d : Nat) (env : Nat) (st : Store) :
    evaluateF (f + 1) d (.ListVal []) env st
      = some (.error (.TypeMismatch "Given empty list"), st) := rfl

theorem evalStepQuote (f d : Nat) (qid : NodeId) (restOps : List Expr) (env : Nat) (st : Store) :
    evaluateF (f + 1) d (.ListVal (.Atom qid (.Identifier "quote") :: restOps)) env st
      = match restOps with
        | [x] => some (.ok (.ExprV x), st)
        | _ => some (.error (.ArityMismatch (arityMsg "Quote" 2 (restOps.length + 1))), st) := rfl

theorem evalStepIf (f d : Nat) (iid : NodeId) (ops : List Expr) (env : Nat) (st : Store) :
    evaluateF (f + 1) d (.ListVal (.Atom iid (.Identifier "if") :: ops)) env st
      = match evalIf (subF f d) ops env st with
        | none => none
        | some (.error err, st') => some (.error err, st')
        | some (.ok nextExpr, st') => evaluateF f d nextExpr env st' := rfl

theorem evalStepDefine (f d : Nat) (did : NodeId) (ops : List Expr) (env : Nat) (st : Store) :
    evaluateF (f + 1) d (.ListVal (.Atom did (.Identifier "define") :: ops)) env st
      = match evalDefine (subF f d) ops env st with
        | none => none
        | some (.error err, st') => some (.error err, st')
        | some (.ok _, st') => some (.ok .Void, st') := rfl

theorem evalStepLambda (f d : Nat) (lid : NodeId) (ops : List Expr) (env : Nat) (st : Store) :
    evaluateF (f + 1) d (.ListVal (.Atom lid (.Identifier "lambda") :: ops)) env st
      = some (evalMakeLambda ops env, st) := rfl

theorem evalStepEval (f d : Nat) (eid : NodeId) (ops : List Expr) (env : Nat) (st : Store) :
    evaluateF (f + 1) d (.ListVal (.Atom eid (.Identifier "eval") :: ops)) env st
      = evalEvalExpr (subF f d) ops env st := rfl

theorem evalStepSet (f d : Nat) (sid : NodeId) (ops : List Expr) (env : Nat) (st : Store) :
    evaluateF (f + 1) d (.ListVal (.Atom sid (.Identifier "set!") :: ops)) env st
      = evalSet (subF f d) ops env st := rfl

theorem evalStepLet (f d : Nat) (lid : NodeId) (ops : List Expr) (env : Nat) (st : Store) :
    evaluateF (f + 1) d (.ListVal (.Atom lid (.Identifier "let") :: ops)) env st
      = match evalLet ops with
        | .error err => some (.error err, st)
        | .ok nextExpr => evaluateF f d nextExpr env st := rfl

theorem evalStepBegin (f d : Nat) (bid : NodeId) (ops : List Expr) (env : Nat) (st : Store) :
    evaluateF (f + 1) d (.ListVal (.Atom bid (.Identifier "begin") :: ops)) env st
      = match evalBegin (subF f d) ops env st with
        | none => none
        | some (.error err, st') => some (.error err, st')
        | some (.ok nextExpr, st') => evaluateF f d nextExpr env st' := rfl

theorem evalStepAnd (f d : Nat) (aid : NodeId) (ops : List Expr) (env : Nat) (st : Store) :
    evaluateF (f + 1) d (.ListVal (.Atom aid (.Identifier "and") :: ops)) env st
      = evalAnd (subF f d) ops env st := rfl

theorem evalStepOr (f d : Nat) (oid : NodeId) (ops : List Expr) (env : Nat) (st : Store) :
    evaluateF (f + 1) d (.ListVal (.Atom oid (.Identifier "or") :: ops)) env st
      = evalOr (subF f d) ops env st := rfl

theorem evalStepAppList (f d : Nat) (hl : List Expr) (ops : List Expr) (env : Nat) (st : Store) :
    evaluateF (f + 1) d (.ListVal (.ListVal hl :: ops)) env st
      = appF f d (.ListVal hl) ops env st := rfl

theorem evalStepAppIdent (f d : Nat) (aid : NodeId) (s : String) (ops : List Expr)
    (env : Nat) (st : Store)
    (h1 : s ≠ "quote") (h2 : s ≠ "if") (h3 : s ≠ "define") (h4 : s ≠ "lambda")
    (h5 : s ≠ "λ") (h6 : s ≠ "eval") (h7 : s ≠ "set!") (h8 : s ≠ "let")
    (h9 : s ≠ "begin") (h10 : s ≠ "and") (h11 : s ≠ "or") :
    evaluateF (f + 1) d (.ListVal (.Atom aid (.Identifier s) :: ops)) env st
      = appF f d (.Atom aid (.Identifier s)) ops env st := by
  show (if s = "quote" then _ else _) = _
  rw [if_neg h1, if_neg h2, if_neg h3, if_neg (not_or.mpr ⟨h4, h5⟩), if_neg h6,
    if_neg h7, if_neg h8, if_neg h9, if_neg h10, if_neg h11]
  rfl

theorem evalStepAppNonIdent (f d : Nat) (aid : NodeId) (t : Token) (ops : List Expr)
    (env : Nat) (st : Store) (h : ∀ s, t ≠ .Identifier s) :
    evaluateF (f + 1) d (.ListVal (.Atom aid t :: ops)) env st
      = appF f d (.Atom aid t) ops env st := by
  cases t with
  | Identifier s => exact absurd rfl (h s)
  | _ => rfl

/-- The binding-collection loop of eval_let succeeds exactly when every
element of the binding list is a two-element list. -/
theorem evalLetCollect_ok_iff (pairs : List Expr) :
    (∃ r, evalLetCollect pairs = .ok r) ↔ ∀ p ∈ pairs, ∃ a b, p = .ListVal [a, b] := by
  induction pairs with
  | nil =>
    constructor
    · intro _ p hp
      exact absurd hp (List.not_mem_nil p)
    · intro _
      exact ⟨([], []), rfl⟩
  | cons p rest ih =>
    constructor
    · rintro ⟨r, hr⟩ q hq
      match p, hr with
      | .ListVal [a, b], hr =>
        rcases List.mem_cons.mp hq with h | h
        · exact h ▸ ⟨a, b, rfl⟩
        · match hcol : evalLetCollect rest with
          | .ok (bs, args) => exact (ih.mp ⟨(bs, args), hcol⟩) q h
          | .error e =>
            rw [show evalLetCollect (Expr.ListVal [a, b] :: rest)
              = match evalLetCollect rest with
                | .error e => .error e
                | .ok (bs, args) => .ok (a :: bs, b :: args) from rfl, hcol] at hr
            exact absurd hr (by simp)
    · intro hall
      obtain ⟨a, b, rfl⟩ := hall p (List.mem_cons_self p rest)
      obtain ⟨⟨bs, args⟩, hcol⟩ := ih.mpr fun q hq => hall q (List.mem_cons_of_mem _ hq)
      refine ⟨(a :: bs, b :: args), ?_⟩
      rw [show evalLetCollect (Expr.ListVal [a, b] :: rest)
        = match evalLetCollect rest with
          | .error e => .error e
          | .ok (bs, args) => .ok (a :: bs, b :: args) from rfl, hcol]

/-- Every failure of the binding-collection loop is a BadSyntax error. -/
theorem evalLetCollect_err_badSyntax (pairs : List Expr) (err : SteelErr)
    (h : evalLetCollect pairs = .error err) : ∃ m, err = .BadSyntax m := by
  induction pairs with
  | nil => exact absurd h (by simp [evalLetCollect])
  | cons p rest ih =>
    match p with
    | .Atom aid t =>
      rw [show evalLetCollect (Expr.Atom aid t :: rest)
        = .error (.BadSyntax "Let: Missing body") from rfl] at h
      exact ⟨"Let: Missing body", (Except.error.injEq _ _).mp h.symm⟩
    | .ListVal l =>
      match l with
      | [a, b] =>
        rw [show evalLetCollect (Expr.ListVal [a, b] :: rest)
          = match evalLetCollect rest with
            | .error e => .error e
            | .ok (bs, args) => .ok (a :: bs, b :: args) from rfl] at h
        match hcol : evalLetCollect rest with
        | .ok (bs, args) => rw [hcol] at h; exact absurd h (by simp)
        | .error e =>
          rw [hcol] at h
          have he : e = err := (Except.error.injEq _ _).mp h
          exact ih (he ▸ hcol)
      | [] => exact ⟨_, ((Except.error.injEq _ _).mp h).symm⟩
      | [a] => exact ⟨_, ((Except.error.injEq _ _).mp h).symm⟩
      | a :: b :: c :: t => exact ⟨_, ((Except.error.injEq _ _).mp h).symm⟩

/-- Claim C3: for every expression e and every environment, evaluating
(eval (quote e)) produces the same result as evaluating e directly in the
same environment: the run of the wrapped form is, step for step, the run of e
itself against the same environment id and the same store, at a fuel/depth
offset accounting for the one extra loop iteration and the one extra native
frame that eval's operand evaluation and re-entry consume.  Divergence and
failure correspond as well since the two sides are equal for every fuel. -/
theorem claim_C3_eval_quote_roundtrip (f d : Nat) (eid qid : NodeId) (e : Expr)
    (env : Nat) (st : Store) :
    evaluateF (f + 2) (d + 1)
        (.ListVal [.Atom eid (.Identifier "eval"),
          .ListVal [.Atom qid (.Identifier "quote"), e]]) env st
      = evaluateF (f + 1) d e env st := rfl

/-- Claim C4: a let form with exactly two operands whose binding list is
well-shaped is rewritten, without evaluating anything, into the application of
the synthesized lambda to the binding expressions, and the loop continues on
that application in the same environment and store (first conjunct: the two
runs are equal at a one-iteration fuel offset, for every fuel and depth).  A
malformed binding list fails with exactly the BadSyntax error produced by the
collection loop, with the store untouched and for every fuel, so no binding
expression was evaluated (second and third conjuncts); collection succeeds
exactly when every binding element is a two-element list, and every collection
failure is a BadSyntax error (fourth and fifth conjuncts). -/
theorem claim_C4_let_desugars_to_lambda_app :
    (∀ (f d : Nat) (lid : NodeId) (pairs : List Expr) (body : Expr)
        (bs args : List Expr) (env : Nat) (st : Store),
      evalLetCollect pairs = .ok (bs, args) →
      evaluateF (f + 1) d
          (.ListVal [.Atom lid (.Identifier "let"), .ListVal pairs, body]) env st
        = evaluateF f d
            (.ListVal (.ListVal [.Atom ⟨0, 0⟩ (.Identifier "lambda"),
              .ListVal bs, body] :: args)) env st)
    ∧ (∀ (f d : Nat) (lid : NodeId) (pairs : List Expr) (body : Expr)
        (err : SteelErr) (env : Nat) (st : Store),
      evalLetCollect pairs = .error err →
      evaluateF (f + 1) d
          (.ListVal [.Atom lid (.Identifier "let"), .ListVal pairs, body]) env st
        = some (.error err, st))
    ∧ (∀ (f d : Nat) (lid aid : NodeId) (t : Token) (body : Expr) (env : Nat) (st : Store),
      evaluateF (f + 1) d
          (.ListVal [.Atom lid (.Identifier "let"), .Atom aid t, body]) env st
        = some (.error (.BadSyntax "Let: Missing name or binding pairs"), st))
    ∧ (∀ pairs : List Expr,
      (∃ r, evalLetCollect pairs = .ok r) ↔ ∀ p ∈ pairs, ∃ a b, p = .ListVal [a, b])
    ∧ (∀ (pairs : List Expr) (err : SteelErr),
      evalLetCollect pairs = .error err → ∃ m, err = .BadSyntax m) := by
  refine ⟨?_, ?_, ?_, evalLetCollect_ok_iff, evalLetCollect_err_badSyntax⟩
  · intro f d lid pairs body bs args env st h
    rw [evalStepLet]
    simp only [evalLet, h]
  · intro f d lid pairs body err env st h
    rw [evalStepLet]
    simp only [evalLet, h]
  · intro f d lid aid t body env st
    rw [evalStepLet]
    rfl

/-- Witness for claim C4 at the spec's concrete scenario
(let ((a 10) (b 20)) (+ a b)): the collection hypothesis is discharged by
computation and the desugared application is exactly
((lambda (a b) (+ a b)) 10 20). -/
theorem claim_C4_witness :
    evalLetCollect
        [.ListVal [.Atom tid (.Identifier "a"), .Atom tid (.NumberLiteral 10)],
         .ListVal [.Atom tid (.Identifier "b"), .Atom tid (.NumberLiteral 20)]]
      = .ok ([.Atom tid (.Identifier "a"), .Atom tid (.Identifier "b")],
             [.Atom tid (.NumberLiteral 10), .Atom tid (.NumberLiteral 20)])
    ∧ evaluateF 9 9
        (.ListVal [.Atom tid (.Identifier "let"),
          .ListVal [.ListVal [.Atom tid (.Identifier "a"), .Atom tid (.NumberLiteral 10)],
            .ListVal [.Atom tid (.Identifier "b"), .Atom tid (.NumberLiteral 20)]],
          .ListVal [.Atom tid (.Identifier "+"), .Atom tid (.Identifier "a"),
            .Atom tid (.Identifier "b")]]) 0 store0
      = evaluateF 8 9
          (.ListVal (.ListVal [.Atom ⟨0, 0⟩ (.Identifier "lambda"),
            .ListVal [.Atom tid (.Identifier "a"), .Atom tid (.Identifier "b")],
            .ListVal [.Atom tid (.Identifier "+"), .Atom tid (.Identifier "a"),
              .Atom tid (.Identifier "b")]]
            :: [.Atom tid (.NumberLiteral 10), .Atom tid (.NumberLiteral 20)])) 0 store0 := by
  refine ⟨rfl, ?_⟩
  exact claim_C4_let_desugars_to_lambda_app.1 8 9 tid _ _ _ _ 0 store0 rfl

/-- Left-to-right sequencing hypothesis for operand lists: every operand in
turn evaluates successfully (threading the store) to a value that is not the
boolean false. -/
inductive AllOkNonFalse (sub : EvalSub) (env : Nat) : List Expr → Store → Store → Prop
  | nil (st : Store) : AllOkNonFalse sub env [] st st
  | cons (e : Expr) (rest : List Expr) (st st₁ st' : Store) (v : SteelVal) :
      sub e env st = some (.ok v, st₁) → v ≠ .BoolV false →
      AllOkNonFalse sub env rest st₁ st' → AllOkNonFalse sub env (e :: rest) st st'

/-- Claim C6: the and form evaluates operands left to right and returns the
literal boolean false at the first operand evaluating to boolean false, with
the remaining operands universally quantified and hence never evaluated
(second conjunct); an operand evaluating to any other value just moves the
loop to the remaining operands (third conjunct); if the operands evaluate in
order with no boolean false (including the zero-operand case) the result is
the literal boolean true (first and fourth conjuncts); the fifth conjunct ties
evalAnd to the evaluate loop's dispatch of the and form. -/
theorem claim_C6_and_short_circuit :
    (∀ (sub : EvalSub) (env : Nat) (st : Store),
      evalAnd sub [] env st = some (.ok (.BoolV true), st))
    ∧ (∀ (sub : EvalSub) (e : Expr) (rest : List Expr) (env : Nat) (st st' : Store),
      sub e env st = some (.ok (.BoolV false), st') →
      evalAnd sub (e :: rest) env st = some (.ok (.BoolV false), st'))
    ∧ (∀ (sub : EvalSub) (e : Expr) (rest : List Expr) (env : Nat) (st st' : Store)
        (v : SteelVal),
      sub e env st = some (.ok v, st') → v ≠ .BoolV false →
      evalAnd sub (e :: rest) env st = evalAnd sub rest env st')
    ∧ (∀ (sub : EvalSub) (env : Nat) (ops : List Expr) (st st' : Store),
      AllOkNonFalse sub env ops st st' →
      evalAnd sub ops env st = some (.ok (.BoolV true), st'))
    ∧ (∀ (f d : Nat) (aid : NodeId) (ops : List Expr) (env : Nat) (st : Store),
      evaluateF (f + 1) d (.ListVal (.Atom aid (.Identifier "and") :: ops)) env st
        = evalAnd (subF f d) ops env st) := by
  have hcont : ∀ (sub : EvalSub) (e : Expr) (rest : List Expr) (env : Nat)
      (st st' : Store) (v : SteelVal),
      sub e env st = some (.ok v, st') → v ≠ .BoolV false →
      evalAnd sub (e :: rest) env st = evalAnd sub rest env st' := by
    intro sub e rest env st st' v h hv
    show (match sub e env st with
      | none => none
      | some (.error err, st') => some (.error err, st')
      | some (.ok (.BoolV true), st') => evalAnd sub rest env st'
      | some (.ok (.BoolV false), st') => some (.ok (.BoolV false), st')
      | some (.ok _, st') => evalAnd sub rest env st') = evalAnd sub rest env st'
    rw [h]
    match v, hv with
    | .BoolV true, _ => rfl
    | .BoolV false, hv => exact absurd rfl hv
    | .NumV n, _ => rfl
    | .StringV s, _ => rfl
    | .Void, _ => rfl
    | .FuncV fn, _ => rfl
    | .LambdaV p b pe, _ => rfl
    | .ExprV e, _ => rfl
  refine ⟨fun _ _ _ => rfl, ?_, hcont, ?_, fun _ _ _ _ _ _ => evalStepAnd ..⟩
  · intro sub e rest env st st' h
    show (match sub e env st with
      | none => none
      | some (.error err, st') => some (.error err, st')
      | some (.ok (.BoolV true), st') => evalAnd sub rest env st'
      | some (.ok (.BoolV false), st') => some (.ok (.BoolV false), st')
      | some (.ok _, st') => evalAnd sub rest env st')
      = some (.ok (.BoolV false), st')
    rw [h]
  · intro sub env ops st st' hseq
    induction hseq with
    | nil st => rfl
    | cons e rest st st₁ stEnd v h hv _ ih => rw [hcont sub e rest env st st₁ v h hv, ih]

/-- Witness for claim C6: (and #t #t #f junk) stops at the #f with the store
untouched even though the trailing operand is an unbound identifier whose
evaluation would fail, and (and) evaluates to true; both discharged through
the claim's conjuncts at concrete inputs. -/
theorem claim_C6_witness :
    evalAnd (subF 5 5)
        [.Atom tid (.BooleanLiteral true), .Atom tid (.BooleanLiteral true),
         .Atom tid (.BooleanLiteral false), .Atom tid (.Identifier "junk")] 0 store0
      = some (.ok (.BoolV false), store0)
    ∧ evalAnd (subF 5 5) [] 0 store0 = some (.ok (.BoolV true), store0) := by
  constructor
  · rw [claim_C6_and_short_circuit.2.2.1 (subF 5 5) (.Atom tid (.BooleanLiteral true)) _ 0
      store0 store0 (.BoolV true) rfl (by simp),
      claim_C6_and_short_circuit.2.2.1 (subF 5 5) (.Atom tid (.BooleanLiteral true)) _ 0
      store0 store0 (.BoolV true) rfl (by simp)]
    exact claim_C6_and_short_circuit.2.1 (subF 5 5) (.Atom tid (.BooleanLiteral false)) _ 0
      store0 store0 rfl
  · exact claim_C6_and_short_circuit.1 (subF 5 5) 0 store0

/-- Claim C9: in and and or, a non-boolean operand value is neither a type
error nor a trigger of the short circuit: both forms simply continue with the
remaining operands (first conjunct, universally over the sub-evaluator and the
remaining operands), so (and 1) evaluates to the literal boolean true and
(or 1) evaluates to the literal boolean false (second and third conjuncts,
through the full evaluate loop for every fuel, depth, environment and
store). -/
theorem claim_C9_nonboolean_operands_in_and_or :
    (∀ (sub : EvalSub) (e : Expr) (rest : List Expr) (env : Nat) (st st' : Store)
        (v : SteelVal),
      sub e env st = some (.ok v, st') → (∀ b, v ≠ .BoolV b) →
      evalAnd sub (e :: rest) env st = evalAnd sub rest env st'
        ∧ evalOr sub (e :: rest) env st = evalOr sub rest env st')
    ∧ (∀ (f d : Nat) (aid nid : NodeId) (env : Nat) (st : Store),
      evaluateF (f + 2) (d + 1)
          (.ListVal [.Atom aid (.Identifier "and"), .Atom nid (.NumberLiteral 1)]) env st
        = some (.ok (.BoolV true), st))
    ∧ (∀ (f d : Nat) (oid nid : NodeId) (env : Nat) (st : Store),
      evaluateF (f + 2) (d + 1)
          (.ListVal [.Atom oid (.Identifier "or"), .Atom nid (.NumberLiteral 1)]) env st
        = some (.ok (.BoolV false), st)) := by
  refine ⟨?_, fun _ _ _ _ _ _ => rfl, fun _ _ _ _ _ _ => rfl⟩
  intro sub e rest env st st' v h hv
  constructor
  · show (match sub e env st with
      | none => none
      | some (.error err, st') => some (.error err, st')
      | some (.ok (.BoolV true), st') => evalAnd sub rest env st'
      | some (.ok (.BoolV false), st') => some (.ok (.BoolV false), st')
      | some (.ok _, st') => evalAnd sub rest env st') = evalAnd sub rest env st'
    rw [h]
    match v, hv with
    | .BoolV b, hv => exact absurd rfl (hv b)
    | .NumV n, _ => rfl
    | .StringV s, _ => rfl
    | .Void, _ => rfl
    | .FuncV fn, _ => rfl
    | .LambdaV p b pe, _ => rfl
    | .ExprV e, _ => rfl
  · show (match sub e env st with
      | none => none
      | some (.error err, st') => some (.error err, st')
      | some (.ok (.BoolV true), st') => some (.ok (.BoolV true), st')
      | some (.ok _, st') => evalOr sub rest env st') = evalOr sub rest env st'
    rw [h]
    match v, hv with
    | .BoolV b, hv => exact absurd rfl (hv b)
    | .NumV n, _ => rfl
    | .StringV s, _ => rfl
    | .Void, _ => rfl
    | .FuncV fn, _ => rfl
    | .LambdaV p b pe, _ => rfl
    | .ExprV e, _ => rfl

/-- Witness for claim C9: a string-valued operand continues both loops at a
concrete input, discharged through the claim's first conjunct. -/
theorem claim_C9_witness :
    evalAnd (subF 5 5) [.Atom tid (.StringLiteral "x")] 0 store0
      = some (.ok (.BoolV true), store0)
    ∧ evalOr (subF 5 5) [.Atom tid (.StringLiteral "x")] 0 store0
      = some (.ok (.BoolV false), store0) := by
  have h := claim_C9_nonboolean_operands_in_and_or.1 (subF 5 5)
    (.Atom tid (.StringLiteral "x")) [] 0 store0 store0 (.StringV "x") rfl
    (by intro b hb; exact nomatch hb)
  exact ⟨h.1, h.2⟩

/-- Claim C5 (amended): every special form checks its operand count first and
fails with an ArityMismatch before evaluating any operand — universally over
the operand expressions, with the store returned untouched and uniformly in
fuel and depth.  For if, define, lambda, eval, set! and let the message names
the form and the expected and actual operand counts; for quote the message
counts include the form head itself (one more than the operand counts); for
begin the zero-operand failure names the form but carries no counts. -/
theorem claim_C5_arity_checks :
    (∀ (f d : Nat) (qid : NodeId) (ops : List Expr) (env : Nat) (st : Store),
      ops.length ≠ 1 →
      evaluateF (f + 1) d (.ListVal (.Atom qid (.Identifier "quote") :: ops)) env st
        = some (.error (.ArityMismatch (arityMsg "Quote" 2 (ops.length + 1))), st))
    ∧ (∀ (f d : Nat) (iid : NodeId) (ops : List Expr) (env : Nat) (st : Store),
      ops.length ≠ 3 →
      evaluateF (f + 1) d (.ListVal (.Atom iid (.Identifier "if") :: ops)) env st
        = some (.error (.ArityMismatch (arityMsg "If" 3 ops.length)), st))
    ∧ (∀ (f d : Nat) (did : NodeId) (ops : List Expr) (env : Nat) (st : Store),
      ops.length ≠ 2 →
      evaluateF (f + 1) d (.ListVal (.Atom did (.Identifier "define") :: ops)) env st
        = some (.error (.ArityMismatch (arityMsg "Define" 2 ops.length)), st))
    ∧ (∀ (f d : Nat) (lid : NodeId) (ops : List Expr) (env : Nat) (st : Store),
      ops.length ≠ 2 →
      evaluateF (f + 1) d (.ListVal (.Atom lid (.Identifier "lambda") :: ops)) env st
        = some (.error (.ArityMismatch (arityMsg "Lambda" 2 ops.length)), st))
    ∧ (∀ (f d : Nat) (eid : NodeId) (ops : List Expr) (env : Nat) (st : Store),
      ops.length ≠ 1 →
      evaluateF (f + 1) d (.ListVal (.Atom eid (.Identifier "eval") :: ops)) env st
        = some (.error (.ArityMismatch (arityMsg "Eval" 1 ops.length)), st))
    ∧ (∀ (f d : Nat) (sid : NodeId) (ops : List Expr) (env : Nat) (st : Store),
      ops.length ≠ 2 →
      evaluateF (f + 1) d (.ListVal (.Atom sid (.Identifier "set!") :: ops)) env st
        = some (.error (.ArityMismatch (arityMsg "Set" 2 ops.length)), st))
    ∧ (∀ (f d : Nat) (lid : NodeId) (ops : List Expr) (env : Nat) (st : Store),
      ops.length ≠ 2 →
      evaluateF (f + 1) d (.ListVal (.Atom lid (.Identifier "let") :: ops)) env st
        = some (.error (.ArityMismatch (arityMsg "Let" 2 ops.length)), st))
    ∧ (∀ (f d : Nat) (bid : NodeId) (env : Nat) (st : Store),
      evaluateF (f + 1) d (.ListVal [.Atom bid (.Identifier "begin")]) env st
        = some (.error (.ArityMismatch "begin requires at least one argument"), st)) := by
  refine ⟨?_, ?_, ?_, ?_, ?_, ?_, ?_, fun _ _ _ _ _ => rfl⟩
  · intro f d qid ops env st h
    rw [evalStepQuote]
    match ops, h with
    | [], _ => rfl
    | [a], h => exact absurd rfl h
    | a :: b :: t, _ => rfl
  · intro f d iid ops env st h
    rw [evalStepIf]
    match ops, h with
    | [], _ => rfl
    | [a], _ => rfl
    | [a, b], _ => rfl
    | [a, b, c], h => exact absurd rfl h
    | a :: b :: c :: e :: t, _ => rfl
  · intro f d did ops env st h
    rw [evalStepDefine]
    match ops, h with
    | [], _ => rfl
    | [a], _ => rfl
    | [a, b], h => exact absurd rfl h
    | a :: b :: c :: t, _ => rfl
  · intro f d lid ops env st h
    rw [evalStepLambda]
    match ops, h with
    | [], _ => rfl
    | [a], _ => rfl
    | [a, b], h => exact absurd rfl h
    | a :: b :: c :: t, _ => rfl
  · intro f d eid ops env st h
    rw [evalStepEval]
    match ops, h with
    | [], _ => rfl
    | [a], h => exact absurd rfl h
    | a :: b :: t, _ => rfl
  · intro f d sid ops env st h
    rw [evalStepSet]
    match ops, h with
    | [], _ => rfl
    | [a], _ => rfl
    | [a, b], h => exact absurd rfl h
    | a :: b :: c :: t, _ => rfl
  · intro f d lid ops env st h
    rw [evalStepLet]
    match ops, h with
    | [], _ => rfl
    | [a], _ => rfl
    | [a, b], h => exact absurd rfl h
    | a :: b :: c :: t, _ => rfl

/-- Counterexample for claim C5 as stated: (begin) has zero operands and its
ArityMismatch message is the fixed string "begin requires at least one
argument", which names neither the expected nor the actual operand count (the
digit 0, the decimal of the actual operand count, does not occur among its
characters); and (quote 1 2) has two operands where one is
expected, yet its message reports 3 and 2 — the counts including the form head
— not the operand counts 2 and 1. -/
theorem claim_C5_counterexample :
    evaluateF 9 9 (.ListVal [.Atom tid (.Identifier "begin")]) 0 store0
      = some (.error (.ArityMismatch "begin requires at least one argument"), store0)
    ∧ ¬ ('0' ∈ "begin requires at least one argument".data)
    ∧ evaluateF 9 9 (.ListVal [.Atom tid (.Identifier "quote"),
        .Atom tid (.NumberLiteral 1), .Atom tid (.NumberLiteral 2)]) 0 store0
      = some (.error (.ArityMismatch "Quote: expected 2 args got 3"), store0)
    ∧ "Quote: expected 2 args got 3" ≠ arityMsg "Quote" 1 2 := by
  exact ⟨rfl, by decide, rfl, by decide⟩

/-- Witness for claim C5 (amended): concrete wrong-count instances of each
form, each discharged through the corresponding conjunct with the length
hypothesis decided by computation; fuel, depth, environment and store are
instantiated concretely. -/
theorem claim_C5_witness :
    evaluateF 9 9 (.ListVal [.Atom tid (.Identifier "if"),
        .Atom tid (.BooleanLiteral true), .Atom tid (.NumberLiteral 1)]) 0 store0
      = some (.error (.ArityMismatch "If: expected 3 args got 2"), store0)
    ∧ evaluateF 9 9 (.ListVal [.Atom tid (.Identifier "eval")]) 0 store0
      = some (.error (.ArityMismatch "Eval: expected 1 args got 0"), store0)
    ∧ evaluateF 9 9 (.ListVal [.Atom tid (.Identifier "set!"),
        .Atom tid (.Identifier "x")]) 0 store0
      = some (.error (.ArityMismatch "Set: expected 2 args got 1"), store0) := by
  refine ⟨?_, ?_, ?_⟩
  · exact claim_C5_arity_checks.2.1 8 9 tid
      [.Atom tid (.BooleanLiteral true), .Atom tid (.NumberLiteral 1)] 0 store0 (by decide)
  · exact claim_C5_arity_checks.2.2.2.2.1 8 9 tid [] 0 store0 (by decide)
  · exact claim_C5_arity_checks.2.2.2.2.2.1 8 9 tid [.Atom tid (.Identifier "x")] 0 store0
      (by decide)

/-- Claim C7: the token stream ending while read_from_tokens is still running
— which is exactly while at least one parenthesized frame is open — fails with
UnexpectedEOF for every stack and frame state (first conjunct); the stream
ending right after a quote marker, whose operand is therefore still awaited,
fails with UnexpectedEOF both at top level and inside a list (second and third
conjuncts); a close paren reaching Iterator::next, where no frame is open,
fails with Unexpected(CloseParen) with the rest of the stream untouched
(fourth conjunct); and the spec's concrete scenarios: the input tokens of
"())" fail with Unexpected(CloseParen) and those of "(abc" fail with
UnexpectedEOF (fifth and sixth conjuncts). -/
theorem claim_C7_parser_eof_and_close_paren :
    (∀ (f : Nat) (stack : List (List Expr)) (frame : List Expr)
        (intern : List (String × Expr)) (c sess : Nat),
      readFromTokensF (f + 1) stack frame ⟨[], intern, c, sess⟩
        = some (.error .UnexpectedEOF, ⟨[], intern, c, sess⟩))
    ∧ (∀ (f : Nat) (intern : List (String × Expr)) (c sess : Nat),
      parserNextF (f + 2) ⟨[.ok .QuoteTick], intern, c, sess⟩
        = some (some (.error .UnexpectedEOF), ⟨[], intern, c, sess⟩))
    ∧ (∀ (f : Nat) (stack : List (List Expr)) (frame : List Expr)
        (intern : List (String × Expr)) (c sess : Nat),
      readFromTokensF (f + 2) stack frame ⟨[.ok .QuoteTick], intern, c, sess⟩
        = some (.error .UnexpectedEOF, ⟨[], intern, c, sess⟩))
    ∧ (∀ (f : Nat) (rest : List (Except TokenError Token))
        (intern : List (String × Expr)) (c sess : Nat),
      parserNextF (f + 1) ⟨.ok .CloseParen :: rest, intern, c, sess⟩
        = some (some (.error (.Unexpected .CloseParen)), ⟨rest, intern, c, sess⟩))
    ∧ parseAllF 9 ⟨[.ok .OpenParen, .ok .CloseParen, .ok .CloseParen], [], 0, 0⟩
      = some (.error (.Unexpected .CloseParen), ⟨[], [], 0, 0⟩)
    ∧ parseAllF 9 ⟨[.ok .OpenParen, .ok (.Identifier "abc")], [], 0, 0⟩
      = some (.error .UnexpectedEOF,
          ⟨[], [("abc", .Atom ⟨0, 0⟩ (.Identifier "abc"))], 1, 0⟩) :=
  ⟨fun _ _ _ _ _ _ => rfl, fun _ _ _ _ => rfl, fun _ _ _ _ _ _ => rfl,
    fun _ _ _ _ _ => rfl, rfl, rfl⟩

/-- The state of an Evaluator instance (evaluator.rs lines 19-30): the global
environment (a frame id into the store) and the interning cache shared with
every Parser the instance creates; counter and session continue the NodeId
allocation of that instance. -/
structure EvaluatorState where
  store : Store
  globalEnv : Nat
  intern : List (String × Expr)
  counter : Nat
  session : Nat

/-- Evaluator::new — a fresh global environment holding the default bindings
and an empty interning cache. -/
def initEvaluator (sess : Nat) : EvaluatorState :=
  ⟨store0, 0, [], 0, sess⟩

/-- The evaluation phase of parse_and_eval: map Evaluator::eval over the
parsed forms and collect, stopping at the first failure; effects of earlier
forms persist in the store.  Each form is evaluated with the given fuel as
both fuel and depth budget (a depth equal to the fuel never cuts a run short,
since every native call consumes fuel as well). -/
def evalSequence (ef : Nat) : List Expr → EvaluatorState →
    Option (Except SteelErr (List SteelVal) × EvaluatorState)
  | [], es => some (.ok [], es)
  | e :: rest, es =>
    match evaluateF ef ef e es.globalEnv es.store with
    | none => none
    | some (.error err, st') => some (.error err, { es with store := st' })
    | some (.ok v, st') =>
      match evalSequence ef rest { es with store := st' } with
      | none => none
      | some (.error err, es') => some (.error err, es')
      | some (.ok vs, es') => some (.ok (v :: vs), es')

/-- Evaluator::parse_and_eval (evaluator.rs lines 37-49): collect the entire
parse first; only if the whole batch parsed does evaluation begin.  The parse
error is converted into a SteelErr by the question-mark operator. -/
def parseAndEval (pf ef : Nat) (toks : List (Except TokenError Token))
    (es : EvaluatorState) : Option (Except SteelErr (List SteelVal) × EvaluatorState) :=
  match parseAllF pf ⟨toks, es.intern, es.counter, es.session⟩ with
  | none => none
  | some (.error pe, pst) =>
    some (.error (.ParseErr pe), { es with intern := pst.intern, counter := pst.counter })
  | some (.ok exprs, pst) =>
    evalSequence ef exprs { es with intern := pst.intern, counter := pst.counter }

/-- Claim C8: parse_and_eval parses the entire input before evaluating
anything.  Whenever the collected parse of the batch fails, parse_and_eval
returns exactly that parse error (converted to a SteelErr), uniformly in the
evaluation fuel, and the resulting state keeps the store and the global
environment of the input state unchanged — no form was evaluated (first
conjunct).  The second conjunct runs the concrete batch (define x 1) followed
by the unterminated form (abc: the first form parses, the last fails, the
returned state still carries the untouched initial store with no binding for
x. -/
theorem claim_C8_parse_all_before_eval :
    (∀ (pf ef : Nat) (toks : List (Except TokenError Token)) (es : EvaluatorState)
        (pe : ParseError) (pst : PState),
      parseAllF pf ⟨toks, es.intern, es.counter, es.session⟩ = some (.error pe, pst) →
      parseAndEval pf ef toks es
        = some (.error (.ParseErr pe),
            { es with intern := pst.intern, counter := pst.counter })
      ∧ ({ es with intern := pst.intern, counter := pst.counter } : EvaluatorState).store
          = es.store
      ∧ ({ es with intern := pst.intern, counter := pst.counter } : EvaluatorState).globalEnv
          = es.globalEnv)
    ∧ (∀ ef : Nat,
      parseAndEval 9 ef
          [.ok .OpenParen, .ok (.Identifier "define"), .ok (.Identifier "x"),
           .ok (.NumberLiteral 1), .ok .CloseParen, .ok .OpenParen,
           .ok (.Identifier "abc")] (initEvaluator 0)
        = some (.error (.ParseErr .UnexpectedEOF),
            ⟨store0, 0,
             [("abc", .Atom ⟨0, 3⟩ (.Identifier "abc")),
              ("x", .Atom ⟨0, 1⟩ (.Identifier "x")),
              ("define", .Atom ⟨0, 0⟩ (.Identifier "define"))], 4, 0⟩)) := by
  constructor
  · intro pf ef toks es pe pst h
    refine ⟨?_, rfl, rfl⟩
    show (match parseAllF pf ⟨toks, es.intern, es.counter, es.session⟩ with
      | none => none
      | some (.error pe, pst) =>
        some (.error (.ParseErr pe), { es with intern := pst.intern, counter := pst.counter })
      | some (.ok exprs, pst) =>
        evalSequence ef exprs { es with intern := pst.intern, counter := pst.counter })
      = some (.error (.ParseErr pe), { es with intern := pst.intern, counter := pst.counter })
    rw [h]
  · intro ef
    rfl

/-- Witness for claim C8: the first conjunct applied at the concrete
seven-token batch above, its parse hypothesis discharged by computation. -/
theorem claim_C8_witness :
    parseAndEval 9 3
        [.ok .OpenParen, .ok (.Identifier "define"), .ok (.Identifier "x"),
         .ok (.NumberLiteral 1), .ok .CloseParen, .ok .OpenParen,
         .ok (.Identifier "abc")] (initEvaluator 0)
      = some (.error (.ParseErr .UnexpectedEOF),
          { initEvaluator 0 with
            intern :=
              [("abc", .Atom ⟨0, 3⟩ (.Identifier "abc")),
               ("x", .Atom ⟨0, 1⟩ (.Identifier "x")),
               ("define", .Atom ⟨0, 0⟩ (.Identifier "define"))],
            counter := 4 }) :=
  (claim_C8_parse_all_before_eval.1 9 3
    [.ok .OpenParen, .ok (.Identifier "define"), .ok (.Identifier "x"),
     .ok (.NumberLiteral 1), .ok .CloseParen, .ok .OpenParen,
     .ok (.Identifier "abc")] (initEvaluator 0) .UnexpectedEOF
    ⟨[], [("abc", .Atom ⟨0, 3⟩ (.Identifier "abc")),
      ("x", .Atom ⟨0, 1⟩ (.Identifier "x")),
      ("define", .Atom ⟨0, 0⟩ (.Identifier "define"))], 4, 0⟩ rfl).1

mutual

/-- Modelled from the spec: the VM-side value kinds that matter at the
lazy-stream boundary.  A callable value (native function, boxed function, or
compiled closure) is modelled by the result that executing it with no
arguments produces — the spec's boundary for the out-of-scope bytecode VM is
exactly "evaluate this closure value and obtain a Value or a failure". -/
inductive VmVal where
  | NumV (n : Int)
  | BoolV (b : Bool)
  | FuncV (res : Except SteelErr VmVal)
  | BoxedFunction (res : Except SteelErr VmVal)
  | Closure (res : Except SteelErr VmVal)
  | StreamV (s : VmLazyStream)

/-- Modelled from the spec: a lazy stream value — the empty marker, the
current first element, and the thunk producing the rest of the stream (the
LazyStream type lives in values/lazy_stream.rs, outside src/). -/
inductive VmLazyStream where
  | mk (emptyStream : Bool) (first : VmVal) (thunk : VmVal)

end

/-- exec_func from lazy_stream.rs lines 82-139: dispatch on the thunk's value
kind; native and boxed functions are called with an empty argument vector,
closures re-enter the VM, anything else is a TypeMismatch. -/
def exec_func : VmVal → Except SteelErr VmVal
  | .FuncV res => res
  | .BoxedFunction res => res
  | .Closure res => res
  | _ => .error (.TypeMismatch "stream expected a function")

/-- The observable outcome of one LazyStreamIter::next call: the iterator is
done (None), the call panicked, or it produced an item. -/
inductive StreamNext where
  | done
  | panicked
  | item (r : Except SteelErr VmVal)

/-- LazyStreamIter::next from lazy_stream.rs lines 46-75: an empty stream
yields None; otherwise the current first element is saved, the thunk is
executed, a stream result replaces the iterator's stream, a non-stream
success panics, and a failed execution leaves the stream untouched with the
failure discarded; every non-panicking non-empty call returns
Some(Ok(saved first element)). -/
def lsNext : VmLazyStream → StreamNext × VmLazyStream
  | .mk emptyStream first thunk =>
    if emptyStream then (.done, .mk emptyStream first thunk)
    else
      match exec_func thunk with
      | .ok (.StreamV s') => (.item (.ok first), s')
      | .ok _ => (.panicked, .mk emptyStream first thunk)
      | .error _ => (.item (.ok first), .mk emptyStream first thunk)

/-- Counterexample for claim C10 as stated: a non-empty stream whose thunk
executes successfully to a non-stream value makes LazyStreamIter::next panic
instead of returning Some(Ok(first element)), so the return is not
unconditional for every non-empty stream. -/
theorem claim_C10_counterexample :
    lsNext (.mk false (.NumV 42) (.FuncV (.ok (.NumV 1))))
      = (.panicked, .mk false (.NumV 42) (.FuncV (.ok (.NumV 1))))
    ∧ (StreamNext.panicked ≠ .item (.ok (.NumV 42))) :=
  ⟨rfl, fun h => nomatch h⟩

/-- Claim C10 (amended): LazyStreamIter::next on an empty stream yields None
(first conjunct); on a non-empty stream it returns Some(Ok(current first
element)) whenever the thunk's execution fails — the error is discarded, the
stream state is left unchanged, and the failure is never surfaced — and
likewise when the thunk produces a stream, which then replaces the iterator's
stream (second and third conjuncts); a thunk executing successfully to a
non-stream value panics with the stream unchanged (fourth conjunct). -/
theorem claim_C10_next_swallows_thunk_errors :
    (∀ (first thunk : VmVal),
      lsNext (.mk true first thunk) = (.done, .mk true first thunk))
    ∧ (∀ (first thunk : VmVal) (err : SteelErr),
      exec_func thunk = .error err →
      lsNext (.mk false first thunk) = (.item (.ok first), .mk false first thunk))
    ∧ (∀ (first thunk : VmVal) (s' : VmLazyStream),
      exec_func thunk = .ok (.StreamV s') →
      lsNext (.mk false first thunk) = (.item (.ok first), s'))
    ∧ (∀ (first thunk v : VmVal),
      exec_func thunk = .ok v → (∀ s', v ≠ .StreamV s') →
      lsNext (.mk false first thunk) = (.panicked, .mk false first thunk)) := by
  refine ⟨fun _ _ => rfl, ?_, ?_, ?_⟩
  · intro first thunk err h
    show (match exec_func thunk with
      | .ok (.StreamV s') => (StreamNext.item (.ok first), s')
      | .ok _ => (.panicked, VmLazyStream.mk false first thunk)
      | .error _ => (.item (.ok first), VmLazyStream.mk false first thunk))
      = (.item (.ok first), VmLazyStream.mk false first thunk)
    rw [h]
  · intro first thunk s' h
    show (match exec_func thunk with
      | .ok (.StreamV s') => (StreamNext.item (.ok first), s')
      | .ok _ => (.panicked, VmLazyStream.mk false first thunk)
      | .error _ => (.item (.ok first), VmLazyStream.mk false first thunk))
      = (.item (.ok first), s')
    rw [h]
  · intro first thunk v h hv
    show (match exec_func thunk with
      | .ok (.StreamV s') => (StreamNext.item (.ok first), s')
      | .ok _ => (.panicked, VmLazyStream.mk false first thunk)
      | .error _ => (.item (.ok first), VmLazyStream.mk false first thunk))
      = (.panicked, VmLazyStream.mk false first thunk)
    rw [h]
    match v, hv with
    | .StreamV s', hv => exact absurd rfl (hv s')
    | .NumV n, _ => rfl
    | .BoolV b, _ => rfl
    | .FuncV r, _ => rfl
    | .BoxedFunction r, _ => rfl
    | .Closure r, _ => rfl

/-- Witness for claim C10 (amended): a closure thunk that fails with a
TypeMismatch is swallowed — next still returns the current first element and
the stream is unchanged; discharged through the claim's second conjunct at a
concrete stream. -/
theorem claim_C10_witness :
    lsNext (.mk false (.NumV 7) (.Closure (.error (.TypeMismatch "boom"))))
      = (.item (.ok (.NumV 7)),
         .mk false (.NumV 7) (.Closure (.error (.TypeMismatch "boom")))) :=
  claim_C10_next_swallows_thunk_errors.2.1 (.NumV 7)
    (.Closure (.error (.TypeMismatch "boom"))) (.TypeMismatch "boom") rfl

/-- The test (< n 1) of the count-down function. -/
def countTest : Expr :=
  .ListVal [.Atom tid (.Identifier "<"), .Atom tid (.Identifier "n"),
    .Atom tid (.NumberLiteral 1)]

/-- The argument (- n 1) of the tail call. -/
def countSub : Expr :=
  .ListVal [.Atom tid (.Identifier "-"), .Atom tid (.Identifier "n"),
    .Atom tid (.NumberLiteral 1)]

/-- The tail call (count (- n 1)). -/
def countCall : Expr :=
  .ListVal [.Atom tid (.Identifier "count"), countSub]

/-- The body of the self-tail-recursive count-down function:
(if (< n 1) 0 (count (- n 1))).  Its recursive call sits in tail position
(the else branch of if), so the trampoline rewrites the loop state instead of
recursing natively. -/
def countBody : Expr :=
  .ListVal [.Atom tid (.Identifier "if"), countTest,
    .Atom tid (.NumberLiteral 0), countCall]

/-- (define (count n) (if (< n 1) 0 (count (- n 1)))) in function-shorthand
form. -/
def defineCount : Expr :=
  .ListVal [.Atom tid (.Identifier "define"),
    .ListVal [.Atom tid (.Identifier "count"), .Atom tid (.Identifier "n")],
    countBody]

/-- The global frame after defining count: the default bindings plus the
count closure capturing the global environment (frame 0). -/
def globalFrame1 : EnvFrame :=
  ⟨defaultBindings ++ [("count", .LambdaV ["n"] countBody 0)], none⟩

/-- The store after evaluating defineCount in store0. -/
def store1 : Store := ⟨[globalFrame1]⟩

/-- Env::lookup resolves in the current frame when the name is bound there. -/
theorem envLookup_hit (st : Store) (e : Nat) (bs : List (String × SteelVal))
    (p : Option Nat) (s : String) (v : SteelVal)
    (h : st.envs[e]? = some ⟨bs, p⟩) (hf : bindingsFind bs s = some v) :
    envLookup st e s = .ok v := by
  show envLookupFuel (e + 1) st e s = .ok v
  simp only [envLookupFuel, h, hf]

/-- Env::lookup walks one step to the global frame when the current frame is
a direct child of frame 0 and misses. -/
theorem envLookup_miss_global (st : Store) (e : Nat) (bs : List (String × SteelVal))
    (s : String) (v : SteelVal) (he : 0 < e)
    (h1 : st.envs[e]? = some ⟨bs, some 0⟩) (hmiss : bindingsFind bs s = none)
    (h0 : st.envs[0]? = some globalFrame1)
    (hv : bindingsFind globalFrame1.bindings s = some v) :
    envLookup st e s = .ok v := by
  obtain ⟨e₀, rfl⟩ : ∃ e₀, e = e₀ + 1 :=
    ⟨e - 1, (Nat.succ_pred_eq_of_pos he).symm⟩
  show envLookupFuel (e₀ + 1 + 1) st (e₀ + 1) s = .ok v
  simp only [envLookupFuel, h1, hmiss, h0, hv]

/-- Appending a frame and reading it back at the old length. -/
theorem frames_concat_get_last (l : List EnvFrame) (fr : EnvFrame) :
    (l ++ [fr])[l.length]? = some fr := by
  induction l with
  | nil => rfl
  | cons a t ih => simp only [List.cons_append, List.length_cons, List.getElem?_cons_succ, List.set_cons_succ]; exact ih

/-- Overwriting the just-appended frame in place. -/
theorem frames_concat_set_last (l : List EnvFrame) (fr fr' : EnvFrame) :
    (l ++ [fr]).set l.length fr' = l ++ [fr'] := by
  induction l with
  | nil => rfl
  | cons a t ih => simp only [List.cons_append, List.length_cons, List.set_cons_succ]; rw [ih]

/-- Reading an index below the old length is unaffected by appending. -/
theorem frames_concat_get_lt (l : List EnvFrame) (fr : EnvFrame) (i : Nat)
    (h : i < l.length) : (l ++ [fr])[i]? = l[i]? := by
  rw [List.getElem?_append, if_pos h]

/-- A store whose frame 0 exists is non-empty. -/
theorem store_pos_of_get0 (st : Store) (fr : EnvFrame)
    (h : st.envs[0]? = some fr) : 0 < st.envs.length := by
  cases hl : st.envs with
  | nil => rw [hl] at h; exact absurd h (by simp)
  | cons a t =>
    have : (0 : Nat) < (a :: t).length := Nat.succ_pos t.length
    exact hl ▸ this

/-- Evaluating the test (< n 1) in a frame binding n to v over the global
frame: a non-tail sub-evaluation completing within a depth budget of 2. -/
theorem count_test_eval (F : Nat) (e : Nat) (st : Store) (v : Int)
    (he : 0 < e)
    (h1 : st.envs[e]? = some ⟨[("n", .NumV v)], some 0⟩)
    (h0 : st.envs[0]? = some globalFrame1) :
    evaluateF (F + 2) 2 countTest e st
      = some (.ok (.BoolV (decide (v < 1))), st) := by
  have hlt : envLookup st e "<" = .ok (.FuncV .lt) :=
    envLookup_miss_global st e _ "<" _ he h1 rfl h0 rfl
  have hop : subF (F + 1) 2 (.Atom tid (.Identifier "<")) e st
      = some (.ok (.FuncV .lt), st) := by
    show evaluateF (F + 1) 1 (.Atom tid (.Identifier "<")) e st = _
    rw [evalStepAtom]
    show some (envLookup st e "<", st) = _
    rw [hlt]
  have harg1 : subF (F + 1) 2 (.Atom tid (.Identifier "n")) e st
      = some (.ok (.NumV v), st) := by
    show evaluateF (F + 1) 1 (.Atom tid (.Identifier "n")) e st = _
    rw [evalStepAtom]
    show some (envLookup st e "n", st) = _
    rw [envLookup_hit st e _ _ "n" _ h1 rfl]
  show evaluateF ((F + 1) + 1) 2
      (.ListVal (.Atom tid (.Identifier "<")
        :: [.Atom tid (.Identifier "n"), .Atom tid (.NumberLiteral 1)])) e st = _
  rw [evalStepAppIdent (F + 1) 2 tid "<" _ e st (by decide) (by decide) (by decide)
    (by decide) (by decide) (by decide) (by decide) (by decide) (by decide)
    (by decide) (by decide)]
  simp only [appF, hop, evalFunc, evalArgs, harg1]
  rfl

/-- Evaluating the argument (- n 1) in a frame binding n to v over the global
frame: a non-tail sub-evaluation completing within a depth budget of 2. -/
theorem count_sub_eval (F : Nat) (e : Nat) (st : Store) (v : Int)
    (he : 0 < e)
    (h1 : st.envs[e]? = some ⟨[("n", .NumV v)], some 0⟩)
    (h0 : st.envs[0]? = some globalFrame1) :
    evaluateF (F + 2) 2 countSub e st
      = some (.ok (.NumV (v - 1)), st) := by
  have hsub : envLookup st e "-" = .ok (.FuncV .sub) :=
    envLookup_miss_global st e _ "-" _ he h1 rfl h0 rfl
  have hop : subF (F + 1) 2 (.Atom tid (.Identifier "-")) e st
      = some (.ok (.FuncV .sub), st) := by
    show evaluateF (F + 1) 1 (.Atom tid (.Identifier "-")) e st = _
    rw [evalStepAtom]
    show some (envLookup st e "-", st) = _
    rw [hsub]
  have harg1 : subF (F + 1) 2 (.Atom tid (.Identifier "n")) e st
      = some (.ok (.NumV v), st) := by
    show evaluateF (F + 1) 1 (.Atom tid (.Identifier "n")) e st = _
    rw [evalStepAtom]
    show some (envLookup st e "n", st) = _
    rw [envLookup_hit st e _ _ "n" _ h1 rfl]
  show evaluateF ((F + 1) + 1) 2
      (.ListVal (.Atom tid (.Identifier "-")
        :: [.Atom tid (.Identifier "n"), .Atom tid (.NumberLiteral 1)])) e st = _
  rw [evalStepAppIdent (F + 1) 2 tid "-" _ e st (by decide) (by decide) (by decide)
    (by decide) (by decide) (by decide) (by decide) (by decide) (by decide)
    (by decide) (by decide)]
  simp only [appF, hop, evalFunc, evalArgs, harg1]
  rfl

/-- Base case of the count-down run: when the bound value is below 1 the test
selects the then-branch and the loop finishes with 0, at depth budget 3 and
any fuel of the form G+3. -/
theorem countdown_base (G : Nat) (e : Nat) (st : Store) (v : Int)
    (he : 0 < e)
    (h1 : st.envs[e]? = some ⟨[("n", .NumV v)], some 0⟩)
    (h0 : st.envs[0]? = some globalFrame1)
    (hv : v < 1) :
    evaluateF (G + 3) 3 countBody e st = some (.ok (.NumV 0), st) := by
  have htest : subF (G + 2) 3 countTest e st = some (.ok (.BoolV true), st) := by
    show evaluateF (G + 2) 2 countTest e st = _
    rw [count_test_eval G e st v he h1 h0, decide_eq_true hv]
  show evaluateF ((G + 2) + 1) 3
      (.ListVal (.Atom tid (.Identifier "if")
        :: [countTest, .Atom tid (.NumberLiteral 0), countCall])) e st = _
  rw [evalStepIf]
  simp only [evalIf, htest]
  exact evalStepAtom (G + 1) 3 tid (.NumberLiteral 0) e st

/-- Step case of the count-down run: when the bound value is at least 1, one
test evaluation and one tail-call rewrite later the loop is back at countBody
with the bound value decremented, a fresh frame over the global environment,
two fuel units consumed — and the depth budget still 3. -/
theorem countdown_step (G : Nat) (e : Nat) (st : Store) (v : Int)
    (he : 0 < e)
    (h1 : st.envs[e]? = some ⟨[("n", .NumV v)], some 0⟩)
    (h0 : st.envs[0]? = some globalFrame1)
    (hv : ¬ v < 1) :
    evaluateF (G + 5) 3 countBody e st
      = evaluateF (G + 3) 3 countBody st.envs.length
          ⟨st.envs ++ [⟨[("n", .NumV (v - 1))], some 0⟩]⟩ := by
  have htest : subF (G + 4) 3 countTest e st = some (.ok (.BoolV false), st) := by
    show evaluateF (G + 4) 2 countTest e st = _
    rw [count_test_eval (G + 2) e st v he h1 h0, decide_eq_false hv]
  have hif : evaluateF (G + 5) 3 countBody e st
      = evaluateF (G + 4) 3 countCall e st := by
    show evaluateF ((G + 4) + 1) 3
        (.ListVal (.Atom tid (.Identifier "if")
          :: [countTest, .Atom tid (.NumberLiteral 0), countCall])) e st = _
    rw [evalStepIf]
    simp only [evalIf, htest]
  have hcount : envLookup st e "count" = .ok (.LambdaV ["n"] countBody 0) :=
    envLookup_miss_global st e _ "count" _ he h1 rfl h0 rfl
  have hop : subF (G + 3) 3 (.Atom tid (.Identifier "count")) e st
      = some (.ok (.LambdaV ["n"] countBody 0), st) := by
    show evaluateF ((G + 2) + 1) 2 (.Atom tid (.Identifier "count")) e st = _
    rw [evalStepAtom]
    show some (envLookup st e "count", st) = _
    rw [hcount]
  have harg : subF (G + 3) 3 countSub e st = some (.ok (.NumV (v - 1)), st) := by
    show evaluateF ((G + 1) + 2) 2 countSub e st = _
    exact count_sub_eval (G + 1) e st v he h1 h0
  have hdef : envDefine ⟨st.envs ++ [⟨[], some 0⟩]⟩ st.envs.length "n" (.NumV (v - 1))
      = ⟨st.envs ++ [⟨[("n", .NumV (v - 1))], some 0⟩]⟩ := by
    simp only [envDefine, frames_concat_get_last]
    rw [frames_concat_set_last]
    rfl
  rw [hif]
  show evaluateF ((G + 3) + 1) 3
      (.ListVal (.Atom tid (.Identifier "count") :: [countSub])) e st = _
  rw [evalStepAppIdent (G + 3) 3 tid "count" _ e st (by decide) (by decide) (by decide)
    (by decide) (by decide) (by decide) (by decide) (by decide) (by decide)
    (by decide) (by decide)]
  simp only [appF, hop, evalLambdaApp, evalArgs, harg, envDefineAll, hdef]

/-- The full count-down run: for every iteration count n, the loop finishes
with 0 at depth budget 3 — independent of n — with fuel linear in n (any
slack K is tolerated). -/
theorem countdown_loop (n : Nat) (K : Nat) :
    ∀ (e : Nat) (st : Store),
    0 < e →
    st.envs[e]? = some ⟨[("n", .NumV (n : Int))], some 0⟩ →
    st.envs[0]? = some globalFrame1 →
    ∃ st', evaluateF (2 * n + 3 + K) 3 countBody e st = some (.ok (.NumV 0), st') := by
  induction n with
  | zero =>
    intro e st he h1 h0
    refine ⟨st, ?_⟩
    rw [show 2 * 0 + 3 + K = K + 3 from by omega]
    exact countdown_base K e st ((0 : Nat) : Int) he h1 h0 (by decide)
  | succ m ih =>
    intro e st he h1 h0
    rw [show 2 * (m + 1) + 3 + K = (2 * m + K) + 5 from by omega]
    rw [countdown_step (2 * m + K) e st ((m + 1 : Nat) : Int) he h1 h0
      (by push_cast; omega)]
    rw [show ((m + 1 : Nat) : Int) - 1 = (m : Int) from by push_cast; ring]
    rw [show (2 * m + K) + 3 = 2 * m + 3 + K from by omega]
    refine ih st.envs.length ⟨st.envs ++ [⟨[("n", .NumV (m : Int))], some 0⟩]⟩
      (store_pos_of_get0 st globalFrame1 h0) ?_ ?_
    · exact frames_concat_get_last st.envs _
    · show (st.envs ++ [⟨[("n", .NumV (m : Int))], some 0⟩])[0]? = some globalFrame1
      rw [frames_concat_get_lt st.envs _ 0 (store_pos_of_get0 st globalFrame1 h0)]
      exact h0

/-- Claim C1: the trampoline executes a self-tail-recursive user function in
constant native stack depth.  First conjunct: the function-shorthand
definition of count evaluates to Void and installs its closure in the global
frame.  Second conjunct: for every iteration count N, the application
(count N) runs to completion — returning 0 — within the fixed depth budget 3
(three native evaluate frames: the loop itself never spends depth on the
if-rewrite or on the lambda-body rewrite, only the non-tail sub-evaluations of
the operator position, the arguments, and the test do), while only the fuel,
which counts loop iterations, grows with N.  A depth bound independent of N is
exactly the absence of native call-stack growth across the N tail calls. -/
theorem claim_C1_tail_calls_constant_native_depth :
    evaluateF 9 9 defineCount 0 store0 = some (.ok .Void, store1)
    ∧ ∀ N : Nat, ∃ stFinal : Store,
        evaluateF (2 * N + 7) 3
            (.ListVal [.Atom tid (.Identifier "count"),
              .Atom tid (.NumberLiteral (N : Int))]) 0 store1
          = some (.ok (.NumV 0), stFinal) := by
  constructor
  · rfl
  · intro N
    obtain ⟨st', hloop⟩ := countdown_loop N 3 1
      ⟨[globalFrame1, ⟨[("n", .NumV (N : Int))], some 0⟩]⟩
      Nat.one_pos rfl rfl
    refine ⟨st', ?_⟩
    have hop : subF (2 * N + 6) 3 (.Atom tid (.Identifier "count")) 0 store1
        = some (.ok (.LambdaV ["n"] countBody 0), store1) := by
      show evaluateF ((2 * N + 5) + 1) 2 (.Atom tid (.Identifier "count")) 0 store1 = _
      rw [evalStepAtom]
      rfl
    have harg : subF (2 * N + 6) 3 (.Atom tid (.NumberLiteral (N : Int))) 0 store1
        = some (.ok (.NumV (N : Int)), store1) := by
      show evaluateF ((2 * N + 5) + 1) 2 (.Atom tid (.NumberLiteral (N : Int))) 0 store1 = _
      rw [evalStepAtom]
      rfl
    have hfirst : evaluateF (2 * N + 7) 3
        (.ListVal [.Atom tid (.Identifier "count"),
          .Atom tid (.NumberLiteral (N : Int))]) 0 store1
        = evaluateF (2 * N + 6) 3 countBody 1
            ⟨[globalFrame1, ⟨[("n", .NumV (N : Int))], some 0⟩]⟩ := by
      show evaluateF ((2 * N + 6) + 1) 3
          (.ListVal (.Atom tid (.Identifier "count")
            :: [.Atom tid (.NumberLiteral (N : Int))])) 0 store1 = _
      rw [evalStepAppIdent (2 * N + 6) 3 tid "count" _ 0 store1 (by decide) (by decide)
        (by decide) (by decide) (by decide) (by decide) (by decide) (by decide)
        (by decide) (by decide) (by decide)]
      simp only [appF, hop, evalLambdaApp, evalArgs, harg, envDefineAll]
      rfl
    rw [hfirst, show 2 * N + 6 = 2 * N + 3 + 3 from by omega]
    exact hloop

/-- Occurrence of an atom node anywhere inside an expression tree. -/
inductive AtomIn : Expr → Expr → Prop
  | refl (id : NodeId) (t : Token) : AtomIn (.Atom id t) (.Atom id t)
  | inList {a e : Expr} {l : List Expr} (he : e ∈ l) (h : AtomIn a e) :
      AtomIn a (.ListVal l)

/-- Every identifier atom occurring in the expression is the interning
table's shared atom for its text. -/
def IdentInterned (intern : List (String × Expr)) (e : Expr) : Prop :=
  ∀ (a : Expr) (id : NodeId) (s : String), AtomIn a e →
    a = .Atom id (.Identifier s) → assocFind intern s = some a

/-- Every atom occurring in the expression carries the given session tag —
it was allocated by this parser/interning-table instance. -/
def AllSess (sess : Nat) (e : Expr) : Prop :=
  ∀ (a : Expr) (id : NodeId) (t : Token), AtomIn a e → a = .Atom id t →
    id.session = sess

/-- Well-formedness of the interning table: every entry maps an identifier
text to an atom of exactly that text, stamped with this session and an
already-spent counter value. -/
def InternWF (st : PState) : Prop :=
  ∀ (k : String) (e : Expr), assocFind st.intern k = some e →
    ∃ i, e = .Atom ⟨st.session, i⟩ (.Identifier k) ∧ i < st.counter

/-- Table extension: every resolvable key stays resolvable to the same shared
atom (the table is insert-only and inserts only on a miss). -/
def Extends (i1 i2 : List (String × Expr)) : Prop :=
  ∀ k e, assocFind i1 k = some e → assocFind i2 k = some e

theorem Extends.refl (i : List (String × Expr)) : Extends i i := fun _ _ h => h

theorem Extends.trans {i1 i2 i3 : List (String × Expr)}
    (h12 : Extends i1 i2) (h23 : Extends i2 i3) : Extends i1 i3 :=
  fun k e h => h23 k e (h12 k e h)

theorem Extends.cons_of_miss {i : List (String × Expr)} {k : String} {v : Expr}
    (hmiss : assocFind i k = none) : Extends i ((k, v) :: i) := by
  intro k' e h
  show (if k = k' then some v else assocFind i k') = some e
  rw [if_neg, h]
  intro hk
  rw [hk] at hmiss
  rw [hmiss] at h
  exact absurd h (by simp)

theorem IdentInterned.mono {i1 i2 : List (String × Expr)} {e : Expr}
    (hext : Extends i1 i2) (h : IdentInterned i1 e) : IdentInterned i2 e :=
  fun a id s ha he => hext s a (h a id s ha he)

theorem atomIn_atom {a : Expr} {id : NodeId} {t : Token}
    (h : AtomIn a (.Atom id t)) : a = .Atom id t := by
  cases h
  rfl

theorem atomIn_list {a : Expr} {l : List Expr} (h : AtomIn a (.ListVal l)) :
    ∃ e ∈ l, AtomIn a e := by
  cases h with
  | inList he ha => exact ⟨_, he, ha⟩

theorem identInterned_listVal {intern : List (String × Expr)} {l : List Expr}
    (h : ∀ e ∈ l, IdentInterned intern e) : IdentInterned intern (.ListVal l) := by
  intro a id s ha he
  obtain ⟨e, hel, hae⟩ := atomIn_list ha
  exact h e hel a id s hae he

theorem allSess_listVal {sess : Nat} {l : List Expr}
    (h : ∀ e ∈ l, AllSess sess e) : AllSess sess (.ListVal l) := by
  intro a id t ha he
  obtain ⟨e, hel, hae⟩ := atomIn_list ha
  exact h e hel a id t hae he

theorem identInterned_atom_of_find {intern : List (String × Expr)} {s : String}
    {id : NodeId} (h : assocFind intern s = some (.Atom id (.Identifier s))) :
    IdentInterned intern (.Atom id (.Identifier s)) := by
  intro a id' s' ha he
  rw [atomIn_atom ha]
  rw [atomIn_atom ha] at he
  have hs : s = s' := Token.Identifier.inj (Expr.Atom.inj he).2
  rw [← hs]
  exact h

theorem identInterned_nonIdent {intern : List (String × Expr)} {id : NodeId}
    {t : Token} (h : ∀ s, t ≠ .Identifier s) :
    IdentInterned intern (.Atom id t) := by
  intro a id' s ha he
  rw [atomIn_atom ha] at he
  exact absurd (Expr.Atom.inj he).2 (h s)

theorem allSess_atom {sess : Nat} {id : NodeId} {t : Token}
    (h : id.session = sess) : AllSess sess (.Atom id t) := by
  intro a id' t' ha he
  rw [atomIn_atom ha] at he
  rw [← (Expr.Atom.inj he).1]
  exact h

/-- Appending one element to a frame preserves pointwise properties. -/
theorem forall_mem_concat {α : Type} {P : α → Prop} {l : List α} {x : α}
    (hl : ∀ e ∈ l, P e) (hx : P x) : ∀ e ∈ l ++ [x], P e := by
  intro e he
  rcases List.mem_append.mp he with h | h
  · exact hl e h
  · rw [List.mem_singleton.mp h]
    exact hx

/-- True unless the stream starts with an identifier token. -/
def headNotIdent : List (Except TokenError Token) → Bool
  | .ok (.Identifier _) :: _ => false
  | _ => true

/-- Scan of a token stream at a given paren depth, accepting exactly the
streams in which every identifier token sits inside at least one open paren
and never directly after a quote marker: those are the identifier tokens
that Parser::read_from_tokens itself consumes and therefore interns. -/
def okGo : Nat → List (Except TokenError Token) → Bool
  | _, [] => true
  | depth, tk :: rest =>
    match tk with
    | .error _ => true
    | .ok .OpenParen => okGo (depth + 1) rest
    | .ok .CloseParen => okGo (depth - 1) rest
    | .ok .QuoteTick => headNotIdent rest && okGo depth rest
    | .ok (.Identifier _) => decide (0 < depth) && okGo depth rest
    | .ok _ => okGo depth rest

/-- At depth zero an accepted stream cannot start with an identifier. -/
theorem okGo_zero_headNotIdent {toks : List (Except TokenError Token)}
    (h : okGo 0 toks = true) : headNotIdent toks = true := by
  match toks with
  | [] => rfl
  | .error _ :: rest => rfl
  | .ok .OpenParen :: rest => rfl
  | .ok .CloseParen :: rest => rfl
  | .ok .QuoteTick :: rest => rfl
  | .ok (.Identifier s) :: rest =>
    exact absurd h (by simp [okGo])
  | .ok (.BooleanLiteral b) :: rest => rfl
  | .ok (.NumberLiteral n) :: rest => rfl
  | .ok (.StringLiteral s) :: rest => rfl

/-- Interning the quote symbol preserves table well-formedness, extends the
table, leaves tokens and session alone, and yields an expression whose
identifier atoms are all interned provided the operand's were. -/
theorem constructQuote_good (st : PState) (x : Expr) (hWF : InternWF st)
    (hx : IdentInterned st.intern x) :
    InternWF (constructQuote st x).2
      ∧ (constructQuote st x).2.session = st.session
      ∧ Extends st.intern (constructQuote st x).2.intern
      ∧ IdentInterned (constructQuote st x).2.intern (constructQuote st x).1
      ∧ (constructQuote st x).2.tokens = st.tokens := by
  unfold constructQuote
  cases hq : assocFind st.intern "quote" with
  | some q =>
    obtain ⟨i, hqe, hic⟩ := hWF "quote" q hq
    refine ⟨hWF, rfl, Extends.refl _, ?_, rfl⟩
    refine identInterned_listVal (fun e he => ?_)
    rcases List.mem_cons.mp he with h | h
    · rw [h, hqe]
      exact identInterned_atom_of_find (hqe ▸ hq)
    · rw [List.mem_singleton.mp h]
      exact hx
  | none =>
    have hext : Extends st.intern
        (("quote", Expr.Atom ⟨st.session, st.counter⟩ (.Identifier "quote")) :: st.intern) :=
      Extends.cons_of_miss hq
    refine ⟨?_, rfl, hext, ?_, rfl⟩
    · intro k e h
      by_cases hk : "quote" = k
      · rw [show assocFind (("quote", Expr.Atom ⟨st.session, st.counter⟩
            (.Identifier "quote")) :: st.intern) k
            = if "quote" = k then some (Expr.Atom ⟨st.session, st.counter⟩
              (.Identifier "quote")) else assocFind st.intern k from rfl, if_pos hk] at h
        refine ⟨st.counter, ?_, Nat.lt_succ_self _⟩
        rw [← (Option.some.inj h), ← hk]
      · rw [show assocFind (("quote", Expr.Atom ⟨st.session, st.counter⟩
            (.Identifier "quote")) :: st.intern) k
            = if "quote" = k then some (Expr.Atom ⟨st.session, st.counter⟩
              (.Identifier "quote")) else assocFind st.intern k from rfl, if_neg hk] at h
        obtain ⟨i, he, hic⟩ := hWF k e h
        exact ⟨i, he, Nat.lt_succ_of_lt hic⟩
    · refine identInterned_listVal (fun e he => ?_)
      rcases List.mem_cons.mp he with h | h
      · rw [h]
        exact identInterned_atom_of_find (by rw [show assocFind (("quote",
          Expr.Atom ⟨st.session, st.counter⟩ (.Identifier "quote")) :: st.intern) "quote"
          = some (Expr.Atom ⟨st.session, st.counter⟩ (.Identifier "quote")) from rfl])
      · rw [List.mem_singleton.mp h]
        exact hx.mono hext

/-- Interning the quote symbol also preserves session stamping: the result's
atoms all carry the session tag provided the operand's did. -/
theorem constructQuote_sess (st : PState) (x : Expr) (hWF : InternWF st)
    (hx : AllSess st.session x) :
    AllSess st.session (constructQuote st x).1 := by
  unfold constructQuote
  cases hq : assocFind st.intern "quote" with
  | some q =>
    obtain ⟨i, hqe, hic⟩ := hWF "quote" q hq
    refine allSess_listVal (fun e he => ?_)
    rcases List.mem_cons.mp he with h | h
    · rw [h, hqe]
      exact allSess_atom rfl
    · rw [List.mem_singleton.mp h]
      exact hx
  | none =>
    refine allSess_listVal (fun e he => ?_)
    rcases List.mem_cons.mp he with h | h
    · rw [h]
      exact allSess_atom rfl
    · rw [List.mem_singleton.mp h]
      exact hx

/-- Table well-formedness only mentions intern, counter and session, so
spending a counter value (fresh non-interned allocation) preserves it. -/
theorem internWF_bump {toks toks' : List (Except TokenError Token)}
    {intern : List (String × Expr)} {c sess : Nat}
    (hWF : InternWF ⟨toks, intern, c, sess⟩) :
    InternWF ⟨toks', intern, c + 1, sess⟩ := by
  intro k e h
  obtain ⟨i, he, hic⟩ := hWF k e h
  exact ⟨i, he, Nat.lt_succ_of_lt hic⟩

/-- Registering a fresh identifier atom on a table miss preserves table
well-formedness. -/
theorem internWF_cons {toks toks' : List (Except TokenError Token)}
    {intern : List (String × Expr)} {c sess : Nat} {s : String}
    (hWF : InternWF ⟨toks, intern, c, sess⟩)
    (_hmiss : assocFind intern s = none) :
    InternWF ⟨toks', (s, .Atom ⟨sess, c⟩ (.Identifier s)) :: intern, c + 1, sess⟩ := by
  intro k e h
  by_cases hk : s = k
  · rw [show assocFind ((s, Expr.Atom ⟨sess, c⟩ (.Identifier s)) :: intern) k
      = if s = k then some (Expr.Atom ⟨sess, c⟩ (.Identifier s))
        else assocFind intern k from rfl, if_pos hk] at h
    refine ⟨c, ?_, Nat.lt_succ_self _⟩
    rw [← Option.some.inj h, ← hk]
  · rw [show assocFind ((s, Expr.Atom ⟨sess, c⟩ (.Identifier s)) :: intern) k
      = if s = k then some (Expr.Atom ⟨sess, c⟩ (.Identifier s))
        else assocFind intern k from rfl, if_neg hk] at h
    obtain ⟨i, he, hic⟩ := hWF k e h
    exact ⟨i, he, Nat.lt_succ_of_lt hic⟩

/-- Interning the quote symbol: the table stays well formed, extends, keeps
the session, and the tokens are untouched (the conclusions of
constructQuote_good that need no hypothesis about the operand). -/
theorem constructQuote_wf (st : PState) (x : Expr) (hWF : InternWF st) :
    InternWF (constructQuote st x).2
      ∧ (constructQuote st x).2.session = st.session
      ∧ Extends st.intern (constructQuote st x).2.intern
      ∧ (constructQuote st x).2.tokens = st.tokens := by
  unfold constructQuote
  cases hq : assocFind st.intern "quote" with
  | some q => exact ⟨hWF, rfl, Extends.refl _, rfl⟩
  | none =>
    refine ⟨?_, rfl, Extends.cons_of_miss hq, rfl⟩
    intro k e h
    by_cases hk : "quote" = k
    · rw [show assocFind (("quote", Expr.Atom ⟨st.session, st.counter⟩
        (.Identifier "quote")) :: st.intern) k
        = if "quote" = k then some (Expr.Atom ⟨st.session, st.counter⟩
          (.Identifier "quote")) else assocFind st.intern k from rfl, if_pos hk] at h
      refine ⟨st.counter, ?_, Nat.lt_succ_self _⟩
      rw [← Option.some.inj h, ← hk]
    · rw [show assocFind (("quote", Expr.Atom ⟨st.session, st.counter⟩
        (.Identifier "quote")) :: st.intern) k
        = if "quote" = k then some (Expr.Atom ⟨st.session, st.counter⟩
          (.Identifier "quote")) else assocFind st.intern k from rfl, if_neg hk] at h
      obtain ⟨i, he, hic⟩ := hWF k e h
      exact ⟨i, he, Nat.lt_succ_of_lt hic⟩

/-- Iterator::next yields None only at the end of the token stream, leaving
the state untouched. -/
theorem parserNextF_none (g : Nat) (st : PState) (st' : PState)
    (h : parserNextF g st = some (none, st')) : st' = st := by
  match g with
  | 0 => exact absurd h (by simp [parserNextF, parseFns])
  | g + 1 =>
    obtain ⟨toks, intern, c, sess⟩ := st
    match toks with
    | [] =>
      simp only [parserNextF, parseFns, parserNextBody] at h
      exact (Prod.mk.inj (Option.some.inj h)).2.symm
    | .error e :: rest => exact absurd h (by simp [parserNextF, parseFns, parserNextBody])
    | .ok .QuoteTick :: rest =>
      simp only [parserNextF, parseFns, parserNextBody] at h
      cases hmid : (parseFns g).nextF ⟨rest, intern, c, sess⟩ with
      | none => rw [hmid] at h; exact absurd h (by simp)
      | some out =>
        obtain ⟨o, st2⟩ := out
        match o with
        | none => rw [hmid] at h; exact absurd h (by simp)
        | some (.error e) => rw [hmid] at h; exact absurd h (by simp)
        | some (.ok y) => rw [hmid] at h; exact absurd h (by simp)
    | .ok .OpenParen :: rest =>
      simp only [parserNextF, parseFns, parserNextBody] at h
      cases hmid : (parseFns g).rftF [] [] ⟨rest, intern, c, sess⟩ with
      | none => rw [hmid] at h; exact absurd h (by simp)
      | some out =>
        obtain ⟨o, st2⟩ := out
        rw [hmid] at h
        exact absurd h (by simp)
    | .ok .CloseParen :: rest => exact absurd h (by simp [parserNextF, parseFns, parserNextBody])
    | .ok (.Identifier s) :: rest => exact absurd h (by simp [parserNextF, parseFns, parserNextBody])
    | .ok (.BooleanLiteral b) :: rest => exact absurd h (by simp [parserNextF, parseFns, parserNextBody])
    | .ok (.NumberLiteral n) :: rest => exact absurd h (by simp [parserNextF, parseFns, parserNextBody])
    | .ok (.StringLiteral s) :: rest => exact absurd h (by simp [parserNextF, parseFns, parserNextBody])

/-- The interning invariant, by induction on the parser fuel, for both entry
points at once.  For Iterator::next (first component): starting from a well
formed table, on a stream accepted by the depth scan and not starting with an
identifier, a successful next preserves well-formedness and the session,
extends the table, leaves the remaining stream accepted, and every identifier
atom of the produced expression is the table's shared atom for its text.  For
read_from_tokens (second component): the same, where the scan depth is the
ambient depth plus the open frames (stack plus the current one) and every
expression already accumulated in the frames has its identifier atoms
interned. -/
theorem parseGood (f : Nat) :
    (∀ (d0 : Nat) (st : PState) (x : Expr) (st' : PState),
      (parseFns f).nextF st = some (some (.ok x), st') →
      InternWF st → okGo d0 st.tokens = true → headNotIdent st.tokens = true →
      InternWF st' ∧ st'.session = st.session ∧ Extends st.intern st'.intern ∧
      IdentInterned st'.intern x ∧ okGo d0 st'.tokens = true)
    ∧ (∀ (d0 : Nat) (stack : List (List Expr)) (frame : List Expr) (st : PState)
        (x : Expr) (st' : PState),
      (parseFns f).rftF stack frame st = some (.ok x, st') →
      InternWF st → okGo (d0 + stack.length + 1) st.tokens = true →
      (∀ e ∈ frame, IdentInterned st.intern e) →
      (∀ fr ∈ stack, ∀ e ∈ fr, IdentInterned st.intern e) →
      InternWF st' ∧ st'.session = st.session ∧ Extends st.intern st'.intern ∧
      IdentInterned st'.intern x ∧ okGo d0 st'.tokens = true) := by
  induction f with
  | zero =>
    constructor
    · intro d0 st x st' h
      exact absurd h (by simp [parseFns])
    · intro d0 stack frame st x st' h
      exact absurd h (by simp [parseFns])
  | succ f ih =>
    obtain ⟨ihN, ihR⟩ := ih
    constructor
    · -- Iterator::next at level f+1
      intro d0 st x st' h hWF hok hhead
      obtain ⟨toks, intern, c, sess⟩ := st
      match toks with
      | [] => exact absurd h (by simp [parseFns, parserNextBody])
      | .error e :: rest => exact absurd h (by simp [parseFns, parserNextBody])
      | .ok .QuoteTick :: rest =>
        simp only [parseFns, parserNextBody] at h
        simp only [okGo, Bool.and_eq_true] at hok
        cases hmid : (parseFns f).nextF ⟨rest, intern, c, sess⟩ with
        | none => rw [hmid] at h; exact absurd h (by simp)
        | some out =>
          obtain ⟨o, st2⟩ := out
          match o with
          | none => rw [hmid] at h; exact absurd h (by simp)
          | some (.error e) => rw [hmid] at h; exact absurd h (by simp)
          | some (.ok y) =>
            rw [hmid] at h
            simp only [Option.some.injEq, Prod.mk.injEq, Except.ok.injEq] at h
            obtain ⟨hx, hst'⟩ := h
            obtain ⟨hWF2, hsess2, hext2, hy, hok2⟩ :=
              ihN d0 ⟨rest, intern, c, sess⟩ y st2 hmid hWF hok.2 hok.1
            obtain ⟨hWF3, hsess3, hext3, hq, htoks3⟩ := constructQuote_good st2 y hWF2 hy
            rw [← hx, ← hst']
            refine ⟨hWF3, by rw [hsess3, hsess2], Extends.trans hext2 hext3, hq, ?_⟩
            rw [htoks3]
            exact hok2
      | .ok .OpenParen :: rest =>
        simp only [parseFns, parserNextBody] at h
        simp only [okGo] at hok
        cases hmid : (parseFns f).rftF [] [] ⟨rest, intern, c, sess⟩ with
        | none => rw [hmid] at h; exact absurd h (by simp)
        | some out =>
          obtain ⟨res, st2⟩ := out
          match res with
          | .error e => rw [hmid] at h; exact absurd h (by simp)
          | .ok y =>
            rw [hmid] at h
            simp only [Option.some.injEq, Prod.mk.injEq, Except.ok.injEq] at h
            obtain ⟨hx, hst'⟩ := h
            have := ihR d0 [] [] ⟨rest, intern, c, sess⟩ y st2 hmid hWF hok
              (by intro e he; exact absurd he (List.not_mem_nil e))
              (by intro fr hfr; exact absurd hfr (List.not_mem_nil fr))
            rw [← hx, ← hst']
            exact this
      | .ok .CloseParen :: rest => exact absurd h (by simp [parseFns, parserNextBody])
      | .ok (.Identifier s) :: rest =>
        exact absurd hhead (by simp [headNotIdent])
      | .ok (.BooleanLiteral b) :: rest =>
        simp only [parseFns, parserNextBody, Option.some.injEq, Prod.mk.injEq, Except.ok.injEq] at h
        obtain ⟨hx, hst'⟩ := h
        simp only [okGo] at hok
        rw [← hx, ← hst']
        exact ⟨internWF_bump hWF, rfl, Extends.refl _,
          identInterned_nonIdent (fun s h => nomatch h), hok⟩
      | .ok (.NumberLiteral n) :: rest =>
        simp only [parseFns, parserNextBody, Option.some.injEq, Prod.mk.injEq, Except.ok.injEq] at h
        obtain ⟨hx, hst'⟩ := h
        simp only [okGo] at hok
        rw [← hx, ← hst']
        exact ⟨internWF_bump hWF, rfl, Extends.refl _,
          identInterned_nonIdent (fun s h => nomatch h), hok⟩
      | .ok (.StringLiteral s0) :: rest =>
        simp only [parseFns, parserNextBody, Option.some.injEq, Prod.mk.injEq, Except.ok.injEq] at h
        obtain ⟨hx, hst'⟩ := h
        simp only [okGo] at hok
        rw [← hx, ← hst']
        exact ⟨internWF_bump hWF, rfl, Extends.refl _,
          identInterned_nonIdent (fun s h => nomatch h), hok⟩
    · -- read_from_tokens at level f+1
      intro d0 stack frame st x st' h hWF hok hframe hstack
      obtain ⟨toks, intern, c, sess⟩ := st
      match toks with
      | [] => exact absurd h (by simp [parseFns, readFromTokensBody])
      | .error e :: rest => exact absurd h (by simp [parseFns, readFromTokensBody])
      | .ok .QuoteTick :: rest =>
        simp only [parseFns, readFromTokensBody] at h
        simp only [okGo, Bool.and_eq_true] at hok
        cases hmid : (parseFns f).nextF ⟨rest, intern, c, sess⟩ with
        | none => rw [hmid] at h; exact absurd h (by simp)
        | some out =>
          obtain ⟨o, st2⟩ := out
          match o with
          | none => rw [hmid] at h; exact absurd h (by simp)
          | some (.error e) => rw [hmid] at h; exact absurd h (by simp)
          | some (.ok y) =>
            rw [hmid] at h
            obtain ⟨hWF2, hsess2, hext2, hy, hok2⟩ :=
              ihN (d0 + stack.length + 1) ⟨rest, intern, c, sess⟩ y st2 hmid hWF hok.2 hok.1
            obtain ⟨hWF3, hsess3, hext3, hq, htoks3⟩ := constructQuote_good st2 y hWF2 hy
            obtain ⟨hWF4, hsess4, hext4, hgx, hok4⟩ :=
              ihR d0 stack (frame ++ [(constructQuote st2 y).1]) (constructQuote st2 y).2
                x st' h hWF3 (by rw [htoks3]; exact hok2)
                (forall_mem_concat
                  (fun e he => (hframe e he).mono (Extends.trans hext2 hext3)) hq)
                (fun fr hfr e he =>
                  (hstack fr hfr e he).mono (Extends.trans hext2 hext3))
            refine ⟨hWF4, by rw [hsess4, hsess3, hsess2], ?_, hgx, hok4⟩
            exact Extends.trans hext2 (Extends.trans hext3 hext4)
      | .ok .OpenParen :: rest =>
        simp only [parseFns, readFromTokensBody] at h
        simp only [okGo] at hok
        exact ihR d0 (frame :: stack) [] ⟨rest, intern, c, sess⟩ x st' h hWF hok
          (by intro e he; exact absurd he (List.not_mem_nil e))
          (by
            intro fr hfr e he
            rcases List.mem_cons.mp hfr with hfr | hfr
            · exact hframe e (hfr ▸ he)
            · exact hstack fr hfr e he)
      | .ok .CloseParen :: rest =>
        simp only [parseFns, readFromTokensBody] at h
        simp only [okGo] at hok
        match stack, hok, hstack with
        | [], hok, hstack =>
          simp only [Option.some.injEq, Prod.mk.injEq, Except.ok.injEq] at h
          obtain ⟨hx, hst'⟩ := h
          rw [← hx, ← hst']
          exact ⟨hWF, rfl, Extends.refl _, identInterned_listVal hframe, hok⟩
        | prevFrame :: stackRest, hok, hstack =>
          exact ihR d0 stackRest (prevFrame ++ [Expr.ListVal frame])
            ⟨rest, intern, c, sess⟩ x st' h hWF hok
            (forall_mem_concat
              (fun e he => hstack prevFrame (List.mem_cons_self _ _) e he)
              (identInterned_listVal hframe))
            (fun fr hfr e he => hstack fr (List.mem_cons_of_mem _ hfr) e he)
      | .ok (.Identifier s) :: rest =>
        simp only [parseFns, readFromTokensBody] at h
        simp only [okGo, Bool.and_eq_true] at hok
        cases hfind : assocFind intern s with
        | some rc =>
          rw [hfind] at h
          obtain ⟨i, hrc, hic⟩ := hWF s rc hfind
          exact ihR d0 stack (frame ++ [rc]) ⟨rest, intern, c, sess⟩ x st' h hWF hok.2
            (forall_mem_concat hframe
              (by rw [hrc]; exact identInterned_atom_of_find (hrc ▸ hfind)))
            hstack
        | none =>
          rw [hfind] at h
          have hext : Extends intern ((s, Expr.Atom ⟨sess, c⟩ (.Identifier s)) :: intern) :=
            Extends.cons_of_miss hfind
          obtain ⟨hWF4, hsess4, hext4, hgx, hok4⟩ :=
            ihR d0 stack (frame ++ [Expr.Atom ⟨sess, c⟩ (.Identifier s)])
              ⟨rest, (s, Expr.Atom ⟨sess, c⟩ (.Identifier s)) :: intern, c + 1, sess⟩
              x st' h (internWF_cons hWF hfind) hok.2
              (forall_mem_concat (fun e he => (hframe e he).mono hext)
                (identInterned_atom_of_find (by
                  show (if s = s then some (Expr.Atom ⟨sess, c⟩ (.Identifier s))
                    else assocFind intern s) = _
                  rw [if_pos rfl])))
              (fun fr hfr e he => (hstack fr hfr e he).mono hext)
          exact ⟨hWF4, hsess4, Extends.trans hext hext4, hgx, hok4⟩
      | .ok (.BooleanLiteral b) :: rest =>
        simp only [parseFns, readFromTokensBody] at h
        simp only [okGo] at hok
        exact ihR d0 stack (frame ++ [Expr.Atom ⟨sess, c⟩ (.BooleanLiteral b)])
          ⟨rest, intern, c + 1, sess⟩ x st' h (internWF_bump hWF) hok
          (forall_mem_concat hframe (identInterned_nonIdent (fun s h => nomatch h)))
          hstack
      | .ok (.NumberLiteral n) :: rest =>
        simp only [parseFns, readFromTokensBody] at h
        simp only [okGo] at hok
        exact ihR d0 stack (frame ++ [Expr.Atom ⟨sess, c⟩ (.NumberLiteral n)])
          ⟨rest, intern, c + 1, sess⟩ x st' h (internWF_bump hWF) hok
          (forall_mem_concat hframe (identInterned_nonIdent (fun s h => nomatch h)))
          hstack
      | .ok (.StringLiteral s0) :: rest =>
        simp only [parseFns, readFromTokensBody] at h
        simp only [okGo] at hok
        exact ihR d0 stack (frame ++ [Expr.Atom ⟨sess, c⟩ (.StringLiteral s0)])
          ⟨rest, intern, c + 1, sess⟩ x st' h (internWF_bump hWF) hok
          (forall_mem_concat hframe (identInterned_nonIdent (fun s h => nomatch h)))
          hstack

/-- Session stamping, by induction on the parser fuel: starting from a well
formed table, every successful parse result carries only atoms stamped with
this instance's session tag — with no side condition on the token stream,
since fresh and interned allocations alike use the instance's tag. -/
theorem parseSess (f : Nat) :
    (∀ (st : PState) (x : Expr) (st' : PState),
      (parseFns f).nextF st = some (some (.ok x), st') →
      InternWF st →
      InternWF st' ∧ st'.session = st.session ∧ AllSess st.session x)
    ∧ (∀ (stack : List (List Expr)) (frame : List Expr) (st : PState)
        (x : Expr) (st' : PState),
      (parseFns f).rftF stack frame st = some (.ok x, st') →
      InternWF st → (∀ e ∈ frame, AllSess st.session e) →
      (∀ fr ∈ stack, ∀ e ∈ fr, AllSess st.session e) →
      InternWF st' ∧ st'.session = st.session ∧ AllSess st.session x) := by
  induction f with
  | zero =>
    constructor
    · intro st x st' h
      exact absurd h (by simp [parseFns])
    · intro stack frame st x st' h
      exact absurd h (by simp [parseFns])
  | succ f ih =>
    obtain ⟨ihN, ihR⟩ := ih
    constructor
    · intro st x st' h hWF
      obtain ⟨toks, intern, c, sess⟩ := st
      match toks with
      | [] => exact absurd h (by simp [parseFns, parserNextBody])
      | .error e :: rest => exact absurd h (by simp [parseFns, parserNextBody])
      | .ok .QuoteTick :: rest =>
        simp only [parseFns, parserNextBody] at h
        cases hmid : (parseFns f).nextF ⟨rest, intern, c, sess⟩ with
        | none => rw [hmid] at h; exact absurd h (by simp)
        | some out =>
          obtain ⟨o, st2⟩ := out
          match o with
          | none => rw [hmid] at h; exact absurd h (by simp)
          | some (.error e) => rw [hmid] at h; exact absurd h (by simp)
          | some (.ok y) =>
            rw [hmid] at h
            simp only [Option.some.injEq, Prod.mk.injEq, Except.ok.injEq] at h
            obtain ⟨hx, hst'⟩ := h
            obtain ⟨hWF2, hsess2, hy⟩ := ihN ⟨rest, intern, c, sess⟩ y st2 hmid hWF
            obtain ⟨hWF3, hsess3, _, htoks3⟩ := constructQuote_wf st2 y hWF2
            rw [← hx, ← hst']
            refine ⟨hWF3, by rw [hsess3, hsess2], ?_⟩
            rw [← hsess2] at hy
            have := constructQuote_sess st2 y hWF2 hy
            rw [hsess2] at this
            exact this
      | .ok .OpenParen :: rest =>
        simp only [parseFns, parserNextBody] at h
        cases hmid : (parseFns f).rftF [] [] ⟨rest, intern, c, sess⟩ with
        | none => rw [hmid] at h; exact absurd h (by simp)
        | some out =>
          obtain ⟨res, st2⟩ := out
          match res with
          | .error e => rw [hmid] at h; exact absurd h (by simp)
          | .ok y =>
            rw [hmid] at h
            simp only [Option.some.injEq, Prod.mk.injEq, Except.ok.injEq] at h
            obtain ⟨hx, hst'⟩ := h
            have := ihR [] [] ⟨rest, intern, c, sess⟩ y st2 hmid hWF
              (by intro e he; exact absurd he (List.not_mem_nil e))
              (by intro fr hfr; exact absurd hfr (List.not_mem_nil fr))
            rw [← hx, ← hst']
            exact this
      | .ok .CloseParen :: rest => exact absurd h (by simp [parseFns, parserNextBody])
      | .ok (.Identifier s) :: rest =>
        simp only [parseFns, parserNextBody, Option.some.injEq, Prod.mk.injEq,
          Except.ok.injEq] at h
        obtain ⟨hx, hst'⟩ := h
        rw [← hx, ← hst']
        exact ⟨internWF_bump hWF, rfl, allSess_atom rfl⟩
      | .ok (.BooleanLiteral b) :: rest =>
        simp only [parseFns, parserNextBody, Option.some.injEq, Prod.mk.injEq,
          Except.ok.injEq] at h
        obtain ⟨hx, hst'⟩ := h
        rw [← hx, ← hst']
        exact ⟨internWF_bump hWF, rfl, allSess_atom rfl⟩
      | .ok (.NumberLiteral n) :: rest =>
        simp only [parseFns, parserNextBody, Option.some.injEq, Prod.mk.injEq,
          Except.ok.injEq] at h
        obtain ⟨hx, hst'⟩ := h
        rw [← hx, ← hst']
        exact ⟨internWF_bump hWF, rfl, allSess_atom rfl⟩
      | .ok (.StringLiteral s0) :: rest =>
        simp only [parseFns, parserNextBody, Option.some.injEq, Prod.mk.injEq,
          Except.ok.injEq] at h
        obtain ⟨hx, hst'⟩ := h
        rw [← hx, ← hst']
        exact ⟨internWF_bump hWF, rfl, allSess_atom rfl⟩
    · intro stack frame st x st' h hWF hframe hstack
      obtain ⟨toks, intern, c, sess⟩ := st
      match toks with
      | [] => exact absurd h (by simp [parseFns, readFromTokensBody])
      | .error e :: rest => exact absurd h (by simp [parseFns, readFromTokensBody])
      | .ok .QuoteTick :: rest =>
        simp only [parseFns, readFromTokensBody] at h
        cases hmid : (parseFns f).nextF ⟨rest, intern, c, sess⟩ with
        | none => rw [hmid] at h; exact absurd h (by simp)
        | some out =>
          obtain ⟨o, st2⟩ := out
          match o with
          | none => rw [hmid] at h; exact absurd h (by simp)
          | some (.error e) => rw [hmid] at h; exact absurd h (by simp)
          | some (.ok y) =>
            rw [hmid] at h
            obtain ⟨hWF2, hsess2, hy⟩ := ihN ⟨rest, intern, c, sess⟩ y st2 hmid hWF
            obtain ⟨hWF3, hsess3, _, htoks3⟩ := constructQuote_wf st2 y hWF2
            have hqs : AllSess sess (constructQuote st2 y).1 := by
              rw [← hsess2] at hy
              have := constructQuote_sess st2 y hWF2 hy
              rw [hsess2] at this
              exact this
            obtain ⟨hWF4, hsess4, hxs⟩ :=
              ihR stack (frame ++ [(constructQuote st2 y).1]) (constructQuote st2 y).2
                x st' h hWF3
                (by
                  rw [hsess3, hsess2]
                  exact forall_mem_concat hframe hqs)
                (by
                  rw [hsess3, hsess2]
                  exact hstack)
            rw [hsess3, hsess2] at hsess4 hxs
            exact ⟨hWF4, hsess4, hxs⟩
      | .ok .OpenParen :: rest =>
        simp only [parseFns, readFromTokensBody] at h
        exact ihR (frame :: stack) [] ⟨rest, intern, c, sess⟩ x st' h hWF
          (by intro e he; exact absurd he (List.not_mem_nil e))
          (by
            intro fr hfr e he
            rcases List.mem_cons.mp hfr with hfr | hfr
            · exact hframe e (hfr ▸ he)
            · exact hstack fr hfr e he)
      | .ok .CloseParen :: rest =>
        simp only [parseFns, readFromTokensBody] at h
        match stack, hstack with
        | [], hstack =>
          simp only [Option.some.injEq, Prod.mk.injEq, Except.ok.injEq] at h
          obtain ⟨hx, hst'⟩ := h
          rw [← hx, ← hst']
          exact ⟨hWF, rfl, allSess_listVal hframe⟩
        | prevFrame :: stackRest, hstack =>
          exact ihR stackRest (prevFrame ++ [Expr.ListVal frame])
            ⟨rest, intern, c, sess⟩ x st' h hWF
            (forall_mem_concat
              (fun e he => hstack prevFrame (List.mem_cons_self _ _) e he)
              (allSess_listVal hframe))
            (fun fr hfr e he => hstack fr (List.mem_cons_of_mem _ hfr) e he)
      | .ok (.Identifier s) :: rest =>
        simp only [parseFns, readFromTokensBody] at h
        cases hfind : assocFind intern s with
        | some rc =>
          rw [hfind] at h
          obtain ⟨i, hrc, hic⟩ := hWF s rc hfind
          exact ihR stack (frame ++ [rc]) ⟨rest, intern, c, sess⟩ x st' h hWF
            (forall_mem_concat hframe (by rw [hrc]; exact allSess_atom rfl))
            hstack
        | none =>
          rw [hfind] at h
          exact ihR stack (frame ++ [Expr.Atom ⟨sess, c⟩ (.Identifier s)])
            ⟨rest, (s, Expr.Atom ⟨sess, c⟩ (.Identifier s)) :: intern, c + 1, sess⟩
            x st' h (internWF_cons hWF hfind)
            (forall_mem_concat hframe (allSess_atom rfl))
            hstack
      | .ok (.BooleanLiteral b) :: rest =>
        simp only [parseFns, readFromTokensBody] at h
        exact ihR stack (frame ++ [Expr.Atom ⟨sess, c⟩ (.BooleanLiteral b)])
          ⟨rest, intern, c + 1, sess⟩ x st' h (internWF_bump hWF)
          (forall_mem_concat hframe (allSess_atom rfl)) hstack
      | .ok (.NumberLiteral n) :: rest =>
        simp only [parseFns, readFromTokensBody] at h
        exact ihR stack (frame ++ [Expr.Atom ⟨sess, c⟩ (.NumberLiteral n)])
          ⟨rest, intern, c + 1, sess⟩ x st' h (internWF_bump hWF)
          (forall_mem_concat hframe (allSess_atom rfl)) hstack
      | .ok (.StringLiteral s0) :: rest =>
        simp only [parseFns, readFromTokensBody] at h
        exact ihR stack (frame ++ [Expr.Atom ⟨sess, c⟩ (.StringLiteral s0)])
          ⟨rest, intern, c + 1, sess⟩ x st' h (internWF_bump hWF)
          (forall_mem_concat hframe (allSess_atom rfl)) hstack

/-- The interning invariant lifted to the collected parse: on an accepted
stream, every identifier atom in every produced top-level expression is the
final table's shared atom for its text. -/
theorem parseAllGood (f : Nat) :
    ∀ (st : PState) (xs : List Expr) (st' : PState),
      parseAllF f st = some (.ok xs, st') →
      InternWF st → okGo 0 st.tokens = true →
      InternWF st' ∧ st'.session = st.session ∧ Extends st.intern st'.intern ∧
      (∀ x ∈ xs, IdentInterned st'.intern x) := by
  induction f with
  | zero =>
    intro st xs st' h
    exact absurd h (by simp [parseAllF])
  | succ f ih =>
    intro st xs st' h hWF hok
    simp only [parseAllF] at h
    cases hmid : parserNextF (f + 1) st with
    | none => rw [hmid] at h; exact absurd h (by simp)
    | some out =>
      obtain ⟨o, st1⟩ := out
      match o with
      | none =>
        rw [hmid] at h
        simp only [Option.some.injEq, Prod.mk.injEq, Except.ok.injEq] at h
        obtain ⟨hxs, hst'⟩ := h
        have hst : st1 = st := parserNextF_none (f + 1) st st1 hmid
        rw [← hxs, ← hst', hst]
        exact ⟨hWF, rfl, Extends.refl _,
          by intro x hx; exact absurd hx (List.not_mem_nil x)⟩
      | some (.error e) => rw [hmid] at h; exact absurd h (by simp)
      | some (.ok x) =>
        rw [hmid] at h
        have h2 : (match parseAllF f st1 with
          | none => none
          | some (Except.error e, stE) => some (Except.error e, stE)
          | some (Except.ok ys, st2) => some (Except.ok (x :: ys), st2)
          : Option (Except ParseError (List Expr) × PState)) = some (.ok xs, st') := h
        clear h
        cases hrec : parseAllF f st1 with
        | none => rw [hrec] at h2; exact absurd h2 (by simp)
        | some out2 =>
          obtain ⟨r2, st2⟩ := out2
          match r2 with
          | .error e => rw [hrec] at h2; exact absurd h2 (by simp)
          | .ok ys =>
            rw [hrec] at h2
            simp only [Option.some.injEq, Prod.mk.injEq, Except.ok.injEq] at h2
            obtain ⟨hxs, hst'⟩ := h2
            obtain ⟨hWF1, hsess1, hext1, hgx, hok1⟩ :=
              (parseGood (f + 1)).1 0 st x st1 hmid hWF hok (okGo_zero_headNotIdent hok)
            obtain ⟨hWF2, hsess2, hext2, hgys⟩ := ih st1 ys st2 hrec hWF1 hok1
            rw [← hxs, ← hst']
            refine ⟨hWF2, by rw [hsess2, hsess1], Extends.trans hext1 hext2, ?_⟩
            intro z hz
            rcases List.mem_cons.mp hz with hz | hz
            · rw [hz]
              exact hgx.mono hext2
            · exact hgys z hz

/-- Session stamping lifted to the collected parse: every atom of every
produced top-level expression carries this instance's session tag. -/
theorem parseAllSess (f : Nat) :
    ∀ (st : PState) (xs : List Expr) (st' : PState),
      parseAllF f st = some (.ok xs, st') →
      InternWF st →
      InternWF st' ∧ st'.session = st.session ∧ (∀ x ∈ xs, AllSess st.session x) := by
  induction f with
  | zero =>
    intro st xs st' h
    exact absurd h (by simp [parseAllF])
  | succ f ih =>
    intro st xs st' h hWF
    simp only [parseAllF] at h
    cases hmid : parserNextF (f + 1) st with
    | none => rw [hmid] at h; exact absurd h (by simp)
    | some out =>
      obtain ⟨o, st1⟩ := out
      match o with
      | none =>
        rw [hmid] at h
        simp only [Option.some.injEq, Prod.mk.injEq, Except.ok.injEq] at h
        obtain ⟨hxs, hst'⟩ := h
        have hst : st1 = st := parserNextF_none (f + 1) st st1 hmid
        rw [← hxs, ← hst', hst]
        exact ⟨hWF, rfl, by intro x hx; exact absurd hx (List.not_mem_nil x)⟩
      | some (.error e) => rw [hmid] at h; exact absurd h (by simp)
      | some (.ok x) =>
        rw [hmid] at h
        have h2 : (match parseAllF f st1 with
          | none => none
          | some (Except.error e, stE) => some (Except.error e, stE)
          | some (Except.ok ys, st2) => some (Except.ok (x :: ys), st2)
          : Option (Except ParseError (List Expr) × PState)) = some (.ok xs, st') := h
        clear h
        cases hrec : parseAllF f st1 with
        | none => rw [hrec] at h2; exact absurd h2 (by simp)
        | some out2 =>
          obtain ⟨r2, st2⟩ := out2
          match r2 with
          | .error e => rw [hrec] at h2; exact absurd h2 (by simp)
          | .ok ys =>
            rw [hrec] at h2
            simp only [Option.some.injEq, Prod.mk.injEq, Except.ok.injEq] at h2
            obtain ⟨hxs, hst'⟩ := h2
            obtain ⟨hWF1, hsess1, hax⟩ := (parseSess (f + 1)).1 st x st1 hmid hWF
            obtain ⟨hWF2, hsess2, hays⟩ := ih st1 ys st2 hrec hWF1
            rw [← hxs, ← hst']
            refine ⟨hWF2, by rw [hsess2, hsess1], ?_⟩
            intro z hz
            rcases List.mem_cons.mp hz with hz | hz
            · rw [hz]
              exact hax
            · rw [← hsess1]
              exact hays z hz

/-- Counterexample for claim C2 as stated: the identifier text a parsed twice
at top level within one session (one interning table, one parse) yields two
distinct atom objects — Iterator::next builds bare top-level atoms with
Rc::new without consulting the interning table, so the claim's "regardless of
whether each occurrence appears at top level or nested" fails. -/
theorem claim_C2_counterexample :
    parseAllF 3 ⟨[.ok (.Identifier "a"), .ok (.Identifier "a")], [], 0, 7⟩
      = some (.ok [.Atom ⟨7, 0⟩ (.Identifier "a"), .Atom ⟨7, 1⟩ (.Identifier "a")],
          ⟨[], [], 2, 7⟩)
    ∧ Expr.Atom ⟨7, 0⟩ (.Identifier "a") ≠ Expr.Atom ⟨7, 1⟩ (.Identifier "a") :=
  ⟨rfl, by simp⟩

/-- Claim C2 (amended): interning is a read_from_tokens discipline, not a
whole-parser one.  First conjunct: on any token stream in which every
identifier token sits inside at least one open paren and never immediately
follows a quote marker (the okGo scan) — i.e. every identifier token is
consumed by read_from_tokens itself — any two identifier atoms of the same
text occurring anywhere in the collected output of one session are the same
shared object.  Second conjunct: a top-level identifier token is instead
turned by Iterator::next into a freshly allocated atom, without consulting or
updating the interning table — so repeated top-level occurrences are distinct
objects (the counterexample).  Third conjunct: runs of two parser/interning
table instances (distinct session tags) never share atoms, whatever their
inputs and accepted outputs. -/
theorem claim_C2_interning_scope :
    (∀ (g : Nat) (toks : List (Except TokenError Token))
        (intern0 : List (String × Expr)) (c0 sess : Nat)
        (xs : List Expr) (st' : PState),
      parseAllF g ⟨toks, intern0, c0, sess⟩ = some (.ok xs, st') →
      InternWF ⟨toks, intern0, c0, sess⟩ →
      okGo 0 toks = true →
      ∀ (x1 x2 a1 a2 : Expr) (id1 id2 : NodeId) (s : String),
        x1 ∈ xs → x2 ∈ xs → AtomIn a1 x1 → AtomIn a2 x2 →
        a1 = .Atom id1 (.Identifier s) → a2 = .Atom id2 (.Identifier s) →
        a1 = a2)
    ∧ (∀ (f : Nat) (s : String) (rest : List (Except TokenError Token))
        (intern : List (String × Expr)) (c sess : Nat),
      parserNextF (f + 1) ⟨.ok (.Identifier s) :: rest, intern, c, sess⟩
        = some (some (.ok (.Atom ⟨sess, c⟩ (.Identifier s))),
            ⟨rest, intern, c + 1, sess⟩))
    ∧ (∀ (g1 g2 : Nat) (toks1 toks2 : List (Except TokenError Token))
        (i1 i2 : List (String × Expr)) (c1 c2 sess1 sess2 : Nat)
        (xs1 xs2 : List Expr) (st1 st2 : PState),
      parseAllF g1 ⟨toks1, i1, c1, sess1⟩ = some (.ok xs1, st1) →
      parseAllF g2 ⟨toks2, i2, c2, sess2⟩ = some (.ok xs2, st2) →
      InternWF ⟨toks1, i1, c1, sess1⟩ → InternWF ⟨toks2, i2, c2, sess2⟩ →
      sess1 ≠ sess2 →
      ∀ (x1 x2 a1 a2 : Expr) (id1 id2 : NodeId) (t1 t2 : Token),
        x1 ∈ xs1 → x2 ∈ xs2 → AtomIn a1 x1 → AtomIn a2 x2 →
        a1 = .Atom id1 t1 → a2 = .Atom id2 t2 → a1 ≠ a2) := by
  refine ⟨?_, fun _ _ _ _ _ _ => rfl, ?_⟩
  · intro g toks intern0 c0 sess xs st' h hWF hok
    intro x1 x2 a1 a2 id1 id2 s hx1 hx2 ha1 ha2 he1 he2
    obtain ⟨hWF', hsess, hext, hall⟩ := parseAllGood g _ xs st' h hWF hok
    have l1 := hall x1 hx1 a1 id1 s ha1 he1
    have l2 := hall x2 hx2 a2 id2 s ha2 he2
    exact Option.some.inj (l1.symm.trans l2)
  · intro g1 g2 toks1 toks2 i1 i2 c1 c2 sess1 sess2 xs1 xs2 st1 st2
      h1 h2 hWF1 hWF2 hne
    intro x1 x2 a1 a2 id1 id2 t1 t2 hx1 hx2 ha1 ha2 he1 he2 heq
    obtain ⟨_, _, hall1⟩ := parseAllSess g1 _ xs1 st1 h1 hWF1
    obtain ⟨_, _, hall2⟩ := parseAllSess g2 _ xs2 st2 h2 hWF2
    have hs1 : id1.session = sess1 := hall1 x1 hx1 a1 id1 t1 ha1 he1
    have hs2 : id2.session = sess2 := hall2 x2 hx2 a2 id2 t2 ha2 he2
    rw [he1, he2] at heq
    obtain ⟨hid, _⟩ := Expr.Atom.inj heq
    rw [← hid] at hs2
    exact hne (hs1.symm.trans hs2)

/-- Witness for claim C2 (amended): the first conjunct applied to the tokens
of the source text (b b), where both occurrences of b are inside a list — the
parse, the scan, and the initial-table well-formedness are discharged on
concrete inputs, and both occurrences resolve to the one shared atom of
session 5 and allocation index 0; the third conjunct applied to two runs of
the same input under session tags 0 and 1 separates their atoms. -/
theorem claim_C2_witness :
    Expr.Atom ⟨5, 0⟩ (.Identifier "b") = Expr.Atom ⟨5, 0⟩ (.Identifier "b")
    ∧ Expr.Atom ⟨0, 0⟩ (.Identifier "b") ≠ Expr.Atom ⟨1, 0⟩ (.Identifier "b") := by
  constructor
  · refine claim_C2_interning_scope.1 9
      [.ok .OpenParen, .ok (.Identifier "b"), .ok (.Identifier "b"), .ok .CloseParen]
      [] 0 5
      [.ListVal [.Atom ⟨5, 0⟩ (.Identifier "b"), .Atom ⟨5, 0⟩ (.Identifier "b")]]
      ⟨[], [("b", .Atom ⟨5, 0⟩ (.Identifier "b"))], 1, 5⟩
      rfl (fun k e hk => absurd hk (by simp [assocFind])) rfl
      (.ListVal [.Atom ⟨5, 0⟩ (.Identifier "b"), .Atom ⟨5, 0⟩ (.Identifier "b")])
      (.ListVal [.Atom ⟨5, 0⟩ (.Identifier "b"), .Atom ⟨5, 0⟩ (.Identifier "b")])
      (.Atom ⟨5, 0⟩ (.Identifier "b")) (.Atom ⟨5, 0⟩ (.Identifier "b"))
      ⟨5, 0⟩ ⟨5, 0⟩ "b"
      (List.mem_singleton.mpr rfl) (List.mem_singleton.mpr rfl)
      (AtomIn.inList (List.mem_cons_self _ _) (AtomIn.refl _ _))
      (AtomIn.inList (List.mem_cons_of_mem _ (List.mem_cons_self _ _)) (AtomIn.refl _ _))
      rfl rfl
  · refine claim_C2_interning_scope.2.2 9 9
      [.ok .OpenParen, .ok (.Identifier "b"), .ok .CloseParen]
      [.ok .OpenParen, .ok (.Identifier "b"), .ok .CloseParen]
      [] [] 0 0 0 1
      [.ListVal [.Atom ⟨0, 0⟩ (.Identifier "b")]]
      [.ListVal [.Atom ⟨1, 0⟩ (.Identifier "b")]]
      ⟨[], [("b", .Atom ⟨0, 0⟩ (.Identifier "b"))], 1, 0⟩
      ⟨[], [("b", .Atom ⟨1, 0⟩ (.Identifier "b"))], 1, 1⟩
      rfl rfl (fun k e hk => absurd hk (by simp [assocFind]))
      (fun k e hk => absurd hk (by simp [assocFind])) (by simp)
      (.ListVal [.Atom ⟨0, 0⟩ (.Identifier "b")])
      (.ListVal [.Atom ⟨1, 0⟩ (.Identifier "b")])
      (.Atom ⟨0, 0⟩ (.Identifier "b")) (.Atom ⟨1, 0⟩ (.Identifier "b"))
      ⟨0, 0⟩ ⟨1, 0⟩ (.Identifier "b") (.Identifier "b")
      (List.mem_singleton.mpr rfl) (List.mem_singleton.mpr rfl)
      (AtomIn.inList (List.mem_cons_self _ _) (AtomIn.refl _ _))
      (AtomIn.inList (List.mem_cons_self _ _) (AtomIn.refl _ _))
      rfl rfl
